import Mathlib

/-!
Verification of the nautobot-plugin-ssot-infoblox repository.

The repository ships the DiffSync data model declarations
(nautobot_ssot_infoblox/diffsync/models/base.py) and the Infoblox REST
client (nautobot_ssot_infoblox/diffsync/client.py).  The reconciliation
engine and operation executor that the specification describes are not
part of the shipped sources, so they are modelled here from the
specification text; the data model and the client functions are embedded
from the sources directly.
-/

namespace InfobloxSSoT

/-! ## Lexicographic order on strings, used for deterministic operation order -/

/-- Boolean lexicographic comparison of character lists by code point. -/
def charListLe : List Char → List Char → Bool
  | [], _ => true
  | _ :: _, [] => false
  | a :: as, b :: bs =>
    if a.toNat < b.toNat then true
    else if b.toNat < a.toNat then false
    else charListLe as bs

/-- Boolean lexicographic comparison of strings by code point. -/
def strLe (x y : String) : Bool := charListLe x.toList y.toList

theorem charListLe_total : ∀ a b : List Char, charListLe a b = true ∨ charListLe b a = true
  | [], _ => Or.inl rfl
  | _ :: _, [] => Or.inr rfl
  | a :: as, b :: bs => by
    rcases Nat.lt_trichotomy a.toNat b.toNat with h | h | h
    · left; simp [charListLe, h]
    · have hba : ¬ b.toNat < a.toNat := by omega
      have hab : ¬ a.toNat < b.toNat := by omega
      rcases charListLe_total as bs with ih | ih
      · left; simp [charListLe, hab, hba, ih]
      · right; simp [charListLe, hab, hba, ih]
    · right; simp [charListLe, h]

theorem charListLe_trans :
    ∀ a b c : List Char, charListLe a b = true → charListLe b c = true →
      charListLe a c = true
  | [], _, _, _, _ => rfl
  | _ :: _, [], _, h, _ => by simp [charListLe] at h
  | _ :: _, _ :: _, [], _, h => by simp [charListLe] at h
  | a :: as, b :: bs, c :: cs, hab, hbc => by
    by_cases h1 : a.toNat < b.toNat
    · by_cases h2 : b.toNat < c.toNat
      · have : a.toNat < c.toNat := Nat.lt_trans h1 h2
        simp [charListLe, this]
      · simp only [charListLe, h2, if_false] at hbc
        by_cases h3 : c.toNat < b.toNat
        · simp [h3] at hbc
        · have hbc' : b.toNat = c.toNat := by omega
          have : a.toNat < c.toNat := by omega
          simp [charListLe, this]
    · simp only [charListLe, h1, if_false] at hab
      by_cases h4 : b.toNat < a.toNat
      · simp [h4] at hab
      · have hab' : a.toNat = b.toNat := by omega
        by_cases h2 : b.toNat < c.toNat
        · have : a.toNat < c.toNat := by omega
          simp [charListLe, this]
        · simp only [charListLe, h2, if_false] at hbc
          by_cases h5 : c.toNat < b.toNat
          · simp [h5] at hbc
          · have hbc' : b.toNat = c.toNat := by omega
            have hac1 : ¬ a.toNat < c.toNat := by omega
            have hac2 : ¬ c.toNat < a.toNat := by omega
            simp only [charListLe, hac1, if_false, hac2, if_neg]
            simp only [charListLe, h4, if_false, if_neg] at hab
            simp only [charListLe, h5, if_false, if_neg] at hbc
            exact charListLe_trans as bs cs hab hbc

theorem strLe_total (x y : String) : strLe x y = true ∨ strLe y x = true :=
  charListLe_total _ _

theorem strLe_trans {x y z : String} (h1 : strLe x y = true) (h2 : strLe y z = true) :
    strLe x z = true :=
  charListLe_trans _ _ _ h1 h2

/-- Sort a list ascending by a string key. -/
def sortByKey (key : α → String) (l : List α) : List α :=
  @List.insertionSort α (fun x y => strLe (key x) (key y) = true)
    (fun x y => instDecidableEqBool (strLe (key x) (key y)) true) l

theorem sortByKey_perm (key : α → String) (l : List α) :
    List.Perm (sortByKey key l) l :=
  List.perm_insertionSort _ l

theorem mem_sortByKey (key : α → String) (l : List α) (x : α) :
    x ∈ sortByKey key l ↔ x ∈ l :=
  (sortByKey_perm key l).mem_iff

theorem sortByKey_sorted (key : α → String) (l : List α) :
    List.Sorted (fun x y => strLe (key x) (key y) = true) (sortByKey key l) := by
  haveI : IsTotal α (fun x y => strLe (key x) (key y) = true) :=
    ⟨fun a b => strLe_total (key a) (key b)⟩
  haveI : IsTrans α (fun x y => strLe (key x) (key y) = true) :=
    ⟨fun a b c h1 h2 => strLe_trans h1 h2⟩
  exact List.sorted_insertionSort _ l

/-! ## Data model

Embedded from nautobot_ssot_infoblox/diffsync/models/base.py.

class Network(DiffSyncModel) declares the identifier tuple ("network",)
and the single field network; no _attributes tuple is declared, so no
attribute is tracked for change detection.

class IPAddress(DiffSyncModel) declares identifiers ("address", "prefix"),
attributes ("status", "dns_name"), and fields address, prefix (a Lean
keyword, rendered here as pfx), status and dns_name, the latter two
Optional.
-/

/-- Network model for DiffSync (base.py lines 11-17). -/
structure Network where
  network : String
deriving DecidableEq, Repr

/-- IPAddress model for DiffSync (base.py lines 20-31); the source field
named after the owning network CIDR is called pfx here because its Python
name is a Lean keyword. -/
structure IPAddress where
  address : String
  pfx : String
  status : Option String
  dns_name : Option String
deriving DecidableEq, Repr

/-- Class-level metadata of `Network` in base.py: `_modelname`. -/
def Network.modelname : String := "prefix"

/-- Class-level metadata of `Network` in base.py: `_identifiers`. -/
def Network.identifiers : List String := ["network"]

/-- Class-level metadata of `Network` in base.py: no `_attributes`
declaration, i.e. the tracked attribute tuple is empty. -/
def Network.attributes : List String := []

/-- Class-level metadata of `IPAddress` in base.py: `_modelname`. -/
def IPAddress.modelname : String := "ipaddress"

/-- Class-level metadata of `IPAddress` in base.py: `_identifiers`. -/
def IPAddress.identifiers : List String := ["address", "prefix"]

/-- Class-level metadata of `IPAddress` in base.py: `_attributes`. -/
def IPAddress.attributes : List String := ["status", "dns_name"]

/-- The composite identifier of an `IPAddress`: the (address, prefix) pair. -/
def ipId (x : IPAddress) : String × String := (x.address, x.pfx)

/-- The identifier string of a `Network`. -/
def netKey (n : Network) : String := n.network

/-- The identifier string of an `IPAddress`: the composite key joined for
lexicographic ordering. -/
def ipKey (x : IPAddress) : String := x.address ++ " " ++ x.pfx

/-- A snapshot: all entities of both kinds visible on one side. -/
structure Snapshot where
  nets : List Network
  ips : List IPAddress
deriving DecidableEq, Repr

/-! ## Reconciliation engine

Modelled from the spec: the generic diff core of section 4.2 (the DiffSync
engine is not among the shipped sources).  Per entity kind it builds the
identifier sets of source A and target B, emits creates for A minus B,
deletes for B minus A, and updates for shared identifiers whose tracked
attributes differ after normalizing absent and empty string to the same
canonical absence marker; segments are ordered network creates first, then
address operations, then network deletes, each segment ascending by
identifier string.
-/

/-- Modelled from the spec: absent and empty string normalize to the same
canonical absence marker. -/
def normAttr : Option String → Option String
  | none => none
  | some s => if s = "" then none else some s

/-- An old/new value pair for one changed field of an update operation. -/
structure FieldChange where
  oldVal : Option String
  newVal : Option String
deriving DecidableEq, Repr

/-- Modelled from the spec: the changed-field record for one tracked
attribute; emitted only if the values differ after normalization, and
carrying the raw old (target) and new (source) values. -/
def fieldDiff (tgtVal srcVal : Option String) : Option FieldChange :=
  if normAttr tgtVal = normAttr srcVal then none else some ⟨tgtVal, srcVal⟩

/-- An update operation for an `IPAddress`: the identifier plus only the
changed fields. -/
structure IpUpdate where
  address : String
  pfx : String
  statusChange : Option FieldChange
  dnsChange : Option FieldChange
deriving DecidableEq, Repr

/-- Modelled from the spec: field-by-field comparison of the tracked
attributes (status, dns_name) of a shared `IPAddress`; yields an update
carrying only the changed fields, or nothing when in sync. -/
def ipUpdateFor (src tgt : IPAddress) : Option IpUpdate :=
  let sc := fieldDiff tgt.status src.status
  let dc := fieldDiff tgt.dns_name src.dns_name
  match sc, dc with
  | none, none => none
  | _, _ => some ⟨src.address, src.pfx, sc, dc⟩

/-- An emitted operation. -/
inductive Op where
  | createNet (n : Network)
  | deleteNet (network : String)
  | createIp (x : IPAddress)
  | updateIp (u : IpUpdate)
  | deleteIp (address : String) (pfx : String)
deriving DecidableEq, Repr

/-- Whether a network with the given identifier is present. -/
def hasNet (l : List Network) (k : String) : Bool :=
  l.any (fun n => n.network == k)

/-- Whether an address with the given composite identifier is present. -/
def hasIp (l : List IPAddress) (ad pf : String) : Bool :=
  l.any (fun x => x.address == ad && x.pfx == pf)

/-- Find the record matching a composite identifier. -/
def findIp (l : List IPAddress) (ad pf : String) : Option IPAddress :=
  l.find? (fun x => x.address == ad && x.pfx == pf)

/-- Modelled from the spec: network create operations, the source networks
absent from the target, ascending by identifier. -/
def netCreates (A B : Snapshot) : List Network :=
  sortByKey netKey (A.nets.filter (fun n => !(hasNet B.nets n.network)))

/-- Modelled from the spec: network delete operations, the target networks
absent from the source, ascending by identifier. -/
def netDeletes (A B : Snapshot) : List Network :=
  sortByKey netKey (B.nets.filter (fun n => !(hasNet A.nets n.network)))

/-- Modelled from the spec: address create operations. -/
def ipCreates (A B : Snapshot) : List IPAddress :=
  sortByKey ipKey (A.ips.filter (fun x => !(hasIp B.ips x.address x.pfx)))

/-- Modelled from the spec: address delete operations. -/
def ipDeletes (A B : Snapshot) : List IPAddress :=
  sortByKey ipKey (B.ips.filter (fun x => !(hasIp A.ips x.address x.pfx)))

/-- Modelled from the spec: the source addresses whose identifier is shared
with the target, ascending by identifier. -/
def ipShared (A B : Snapshot) : List IPAddress :=
  sortByKey ipKey (A.ips.filter (fun x => hasIp B.ips x.address x.pfx))

/-- Modelled from the spec: address update operations for shared
identifiers whose tracked attributes differ after normalization. -/
def ipUpdates (A B : Snapshot) : List IpUpdate :=
  (ipShared A B).filterMap (fun src =>
    match findIp B.ips src.address src.pfx with
    | some tgt => ipUpdateFor src tgt
    | none => none)

/-- Modelled from the spec: the ordered operation list of one
reconciliation run, source A against target B.  Network creates precede
all address operations; address deletes precede network deletes. -/
def runDiff (A B : Snapshot) : List Op :=
  (netCreates A B).map Op.createNet
    ++ (ipCreates A B).map Op.createIp
    ++ (ipUpdates A B).map Op.updateIp
    ++ (ipDeletes A B).map (fun x => Op.deleteIp x.address x.pfx)
    ++ (netDeletes A B).map (fun n => Op.deleteNet n.network)

/-- Modelled from the spec: the number of entities reported unchanged, the
shared identifiers whose comparison found no difference. -/
def unchangedCount (A B : Snapshot) : Nat :=
  (A.nets.filter (fun n => hasNet B.nets n.network)).length
    + ((A.ips.filter (fun x => hasIp B.ips x.address x.pfx)).filter (fun src =>
        match findIp B.ips src.address src.pfx with
        | some tgt => (ipUpdateFor src tgt).isNone
        | none => false)).length

/-! ## Applying operations to the target snapshot

Modelled from the spec: the effect on the target store of the Operation
Executor successfully applying each operation (section 4.3): create
inserts the record, delete removes the record with the identifier, update
writes only the changed fields onto the matching record.
-/

/-- Modelled from the spec: write the changed fields of one update onto a
record when the identifier matches, leaving other records untouched. -/
def applyUpd (u : IpUpdate) (x : IPAddress) : IPAddress :=
  if u.address == x.address && u.pfx == x.pfx then
    { x with
      status := match u.statusChange with
        | some c => c.newVal
        | none => x.status
      dns_name := match u.dnsChange with
        | some c => c.newVal
        | none => x.dns_name }
  else x

/-- Modelled from the spec: the effect of one successfully applied
operation on the target snapshot. -/
def applyOp (S : Snapshot) : Op → Snapshot
  | .createNet n => { S with nets := S.nets ++ [n] }
  | .deleteNet k => { S with nets := S.nets.filter (fun n => !(n.network == k)) }
  | .createIp x => { S with ips := S.ips ++ [x] }
  | .updateIp u => { S with ips := S.ips.map (applyUpd u) }
  | .deleteIp ad pf =>
      { S with ips := S.ips.filter (fun x => !(x.address == ad && x.pfx == pf)) }

/-- Modelled from the spec: apply an operation list in order. -/
def applyOps (ops : List Op) (S : Snapshot) : Snapshot :=
  ops.foldl applyOp S

/-- Sequentially apply a list of updates to one record. -/
def chainUpd (us : List IpUpdate) (x : IPAddress) : IPAddress :=
  us.foldl (fun y u => applyUpd u y) x

/-! ## Operation executor

Modelled from the spec: the Operation Executor of section 4.3 applies each
emitted operation against the target adapter, isolates per-operation
failures, maps a not-found error on a delete to success, and aggregates a
report of counts plus the ordered failure list.
-/

/-- A single-operation error returned by the target adapter. -/
inductive OpError where
  | notFound
  | conflict (reason : String)
  | other (msg : String)
deriving DecidableEq, Repr

/-- The report returned by a sync run. -/
structure Report where
  created : Nat
  updated : Nat
  deleted : Nat
  unchanged : Nat
  failed : Nat
  failures : List (Op × OpError)
deriving DecidableEq, Repr

/-- Whether an operation is a delete. -/
def isDelete : Op → Bool
  | .deleteNet _ => true
  | .deleteIp _ _ => true
  | _ => false

/-- Increment the success counter matching the operation kind. -/
def countSuccess (r : Report) (op : Op) : Report :=
  match op with
  | .createNet _ => { r with created := r.created + 1 }
  | .createIp _ => { r with created := r.created + 1 }
  | .updateIp _ => { r with updated := r.updated + 1 }
  | .deleteNet _ => { r with deleted := r.deleted + 1 }
  | .deleteIp _ _ => { r with deleted := r.deleted + 1 }

/-- Modelled from the spec: execute one operation against the adapter
outcome `f`; a not-found error on a delete is recorded as success by the
executor itself, any other error is recorded in the failure list and does
not escape. -/
def execOne (f : Op → Except OpError Unit) (r : Report) (op : Op) : Report :=
  match f op with
  | .ok _ => countSuccess r op
  | .error e =>
      if isDelete op && (e == OpError.notFound) then countSuccess r op
      else { r with failed := r.failed + 1, failures := r.failures ++ [(op, e)] }

/-- The empty report carrying the unchanged count from reconciliation. -/
def initReport (unchanged : Nat) : Report :=
  ⟨0, 0, 0, unchanged, 0, []⟩

/-- Modelled from the spec: attempt every operation in order and return
the aggregated report; failures never abort the remaining operations. -/
def execOps (f : Op → Except OpError Unit) (ops : List Op) (unchanged : Nat) : Report :=
  ops.foldl (execOne f) (initReport unchanged)

/-- Whether the executor records the operation as a success under adapter
outcome `f`: an ok result, or a not-found error on a delete. -/
def opSucceeds (f : Op → Except OpError Unit) (op : Op) : Bool :=
  match f op with
  | .ok _ => true
  | .error e => isDelete op && (e == OpError.notFound)

/-- The failure-list entry an operation produces, if any. -/
def failEntry (f : Op → Except OpError Unit) (op : Op) : Option (Op × OpError) :=
  match f op with
  | .ok _ => none
  | .error e => if isDelete op && (e == OpError.notFound) then none else some (op, e)

/-! ## Infoblox client embedding

Embedded from nautobot_ssot_infoblox/diffsync/client.py.  HTTP traffic is
modelled by an oracle mapping each request to either the decoded JSON
body or a raised exception (raise_for_status, transport errors); every
embedded method returns its Python result together with the list of
requests it issued, in order.
-/

/-- A JSON value as decoded from a response body or placed in a payload. -/
inductive JVal where
  | str (s : String)
  | num (n : Int)
  | boolean (b : Bool)
  | null
  | arr (xs : List JVal)
  | obj (fields : List (String × JVal))
deriving Repr

/-- Dictionary lookup, first matching key: the Python dict access. -/
def jlookup (fields : List (String × JVal)) (k : String) : Option JVal :=
  match fields.find? (fun kv => kv.1 == k) with
  | some kv => some kv.2
  | none => none

/-- Python str() of the JSON values that can reach an f-string here. -/
def pyStr : JVal → String
  | .str s => s
  | .null => "None"
  | .boolean true => "True"
  | .boolean false => "False"
  | .num n => toString n
  | .arr _ => "<list>"
  | .obj _ => "<dict>"

/-- Python truthiness of a JSON value. -/
def pyTruthy : JVal → Bool
  | .str s => !(s == "")
  | .null => false
  | .boolean b => b
  | .num n => !(n == 0)
  | .arr xs => !xs.isEmpty
  | .obj fs => !fs.isEmpty

/-- One HTTP request issued through InfobloxApi._request. -/
structure Request where
  method : String
  path : String
  params : List (String × JVal)
  payload : List (String × JVal)
deriving Repr

/-- The appliance side of _request: the decoded JSON body of the
response, or the exception the call raises. -/
def Oracle := Request → Except String JVal

/-! ### get_dhcp_lease (client.py lines 317-360)

The method counts the matches of the IPv4 dotted-quad regular expression
in its argument and branches: a positive count yields the hard-coded
ACTIVE demo lease record, otherwise the hard-coded STATIC demo lease
record; both calls to the real lookup helpers are commented out and no
request is made.  The octet pattern alternatives are 25x for x up to 5,
2yd for y up to 4, and an optional 0 or 1 followed by one or two digits.
-/

/-- Whether the character list is one octet of the regular expression in
get_dhcp_lease: one or two arbitrary digits, or three digits denoting a
value at most 255 whose first digit is 0, 1 or 2. -/
def isOctet : List Char → Bool
  | [a] => a.isDigit
  | [a, b] => a.isDigit && b.isDigit
  | [a, b, c] =>
      ((a == '0' || a == '1') && b.isDigit && c.isDigit)
        || (a == '2' && ('0' ≤ b && b ≤ '4') && c.isDigit)
        || (a == '2' && b == '5' && ('0' ≤ c && c ≤ '5'))
  | _ => false

/-- Match one octet as a prefix, then continue with `k` on the rest,
trying every admissible octet length. -/
def matchOctetThen (k : List Char → Bool) : List Char → Bool
  | [] => false
  | [a] => isOctet [a] && k []
  | [a, b] => (isOctet [a] && k [b]) || (isOctet [a, b] && k [])
  | a :: b :: c :: rest =>
      (isOctet [a] && k (b :: c :: rest))
        || (isOctet [a, b] && k (c :: rest))
        || (isOctet [a, b, c] && k rest)

/-- Match a literal dot, then continue with `k`. -/
def matchDotThen (k : List Char → Bool) : List Char → Bool
  | [] => false
  | c :: rest => c == '.' && k rest

/-- Whether an IPv4 dotted quad of the regular expression starts at the
head of the character list. -/
def quadAt : List Char → Bool :=
  matchOctetThen (matchDotThen (matchOctetThen (matchDotThen
    (matchOctetThen (matchDotThen (matchOctetThen (fun _ => true)))))))

/-- Whether some suffix of the character list starts with a dotted quad,
i.e. whether re.findall finds at least one match. -/
def containsQuad : List Char → Bool
  | [] => false
  | c :: rest => quadAt (c :: rest) || containsQuad rest

/-- The hard-coded demo lease returned for an IPv4-looking argument. -/
def activeLeaseDemo : List (String × String) :=
  [("_ref", "lease/ZG5zLmxlYXNlJDQvMTcyLjE2LjIwMC4xMDEvMC8:172.26.1.250/default1"),
   ("binding_state", "ACTIVE"),
   ("fingerprint", "Cisco/Linksys SPA series IP Phone"),
   ("hardware", "16:55:a4:1b:98:c9")]

/-- The hard-coded demo lease returned for a hostname-looking argument. -/
def staticLeaseDemo : List (String × String) :=
  [("_ref", "lease/ZG5zLmxlYXNlJC8xOTIuMTY4LjQuMy8wLzE3:192.168.4.3/Company%201"),
   ("binding_state", "STATIC"),
   ("client_hostname", "test"),
   ("hardware", "12:34:56:78:91:23")]

/-- client.py lines 317-360: get_dhcp_lease.  The result is the returned
record list paired with the requests issued. -/
def get_dhcp_lease (lease_to_check : String) :
    List (List (String × String)) × List Request :=
  if containsQuad lease_to_check.toList then ([activeLeaseDemo], [])
  else ([staticLeaseDemo], [])

/-! ### find_next_available_ip and reserve_fixed_address
(client.py lines 446-517) -/

/-- The GET issued by _find_network_reference. -/
def netRefRequest (network : String) : Request :=
  ⟨"GET", "network", [("network", .str network)], []⟩

/-- client.py lines 446-465: _find_network_reference issues one GET on
the network endpoint and returns the decoded body. -/
def find_network_reference (o : Oracle) (network : String) :
    Except String JVal × List Request :=
  (o (netRefRequest network), [netRefRequest network])

/-- The POST issued by find_next_available_ip once a network reference is
known. -/
def nextIpRequest (refPath : String) : Request :=
  ⟨"POST", refPath, [("_function", .str "next_available_ip")], [("num", .num 1)]⟩

/-- client.py lines 467-497: find_next_available_ip.  The reference
lookup is wrapped in try/except and any exception yields the empty
string; a body that is not a non-empty list also yields the empty string
without the second request; otherwise the first element provides the
reference path for the next_available_ip POST, whose body must carry a
non-empty ips list (failures there are uncaught). -/
def find_next_available_ip (o : Oracle) (network : String) :
    Except String JVal × List Request :=
  match find_network_reference o network with
  | (.error _, reqs) => (.ok (.str ""), reqs)
  | (.ok body, reqs) =>
    match body with
    | .arr (first :: _) =>
      match first with
      | .obj fields =>
        let refPath := pyStr ((jlookup fields "_ref").getD .null)
        let req2 := nextIpRequest refPath
        (match o req2 with
         | .error e => (.error e, reqs ++ [req2])
         | .ok body2 =>
           match body2 with
           | .obj fields2 =>
             (match jlookup fields2 "ips" with
              | some (.arr (ip :: _)) => (.ok ip, reqs ++ [req2])
              | some (.arr []) => (.error "IndexError", reqs ++ [req2])
              | some _ => (.error "TypeError", reqs ++ [req2])
              | none => (.error "TypeError", reqs ++ [req2]))
           | _ => (.error "AttributeError", reqs ++ [req2]))
      | _ => (.error "AttributeError", reqs)
    | _ => (.ok (.str ""), reqs)

/-- The POST issued by reserve_fixed_address to create the fixed
address. -/
def fixedAddressRequest (ip : JVal) (mac : String) : Request :=
  ⟨"POST", "fixedaddress",
    [("_return_fields", .str "ipv4addr"), ("_return_as_object", .num 1)],
    [("ipv4addr", ip), ("mac", .str mac)]⟩

/-- client.py lines 499-517: reserve_fixed_address.  A falsy next
available address returns False with no fixedaddress POST; otherwise the
POST is issued and the ipv4addr of its result object is returned. -/
def reserve_fixed_address (o : Oracle) (network mac_address : String) :
    Except String JVal × List Request :=
  match find_next_available_ip o network with
  | (.error e, reqs) => (.error e, reqs)
  | (.ok ip, reqs) =>
    if pyTruthy ip then
      let req := fixedAddressRequest ip mac_address
      (match o req with
       | .error e => (.error e, reqs ++ [req])
       | .ok body =>
         match body with
         | .obj fields =>
           (match jlookup fields "result" with
            | some (.obj rfields) =>
              (.ok ((jlookup rfields "ipv4addr").getD .null), reqs ++ [req])
            | some .null => (.error "AttributeError", reqs ++ [req])
            | some _ => (.error "AttributeError", reqs ++ [req])
            | none => (.error "AttributeError", reqs ++ [req]))
         | _ => (.error "AttributeError", reqs ++ [req]))
    else (.ok (.boolean false), reqs)

/-! ### create_ptr_record (client.py lines 542-568) -/

/-- The decimal value of a digit list. -/
def charsToNat (cs : List Char) : Nat :=
  cs.foldl (fun n c => n * 10 + (c.toNat - '0'.toNat)) 0

/-- Whether a string is one decimal octet dns.ipv4.inet_aton accepts:
one to three digits valued at most 255, with no leading zero in a
multi-digit octet (inet_aton raises SyntaxError on leading zeros).  On
accepted octets the decimal re-rendering the library performs is the
identity, so the octet text can be reused verbatim. -/
def validOctetStr (s : String) : Bool :=
  decide (0 < s.toList.length) && decide (s.toList.length ≤ 3)
    && s.toList.all Char.isDigit
    && decide (charsToNat s.toList ≤ 255)
    && (decide (s.toList.length = 1) || !(s.toList.head? == some '0'))

/-- The split of a character list on the dot character, the Python
text.split of the dotted quad. -/
def splitDots : List Char → List (List Char)
  | [] => [[]]
  | c :: rest =>
    match splitDots rest with
    | [] => [[c]]
    | h :: t => if c = '.' then [] :: h :: t else (c :: h) :: t

/-- Modelled from the library call dns.reversename.from_address used by
client.py line 562: the address must pass dns.ipv4.inet_aton (four
decimal octets, each at most 255, no leading zeros); the octets are then
re-rendered in decimal, reversed and joined under in-addr.arpa with a
trailing root dot, and invalid text raises SyntaxError.  Because
accepted octets carry no leading zero, the decimal re-rendering equals
the original octet text. -/
def from_address (ip_address : String) : Option String :=
  match (splitDots ip_address.toList).map List.asString with
  | [a, b, c, d] =>
    if validOctetStr a && validOctetStr b && validOctetStr c && validOctetStr d then
      some (d ++ "." ++ c ++ "." ++ b ++ "." ++ a ++ ".in-addr.arpa.")
    else none
  | _ => none

/-- The Python slice s[0:-1]: all characters but the last. -/
def sliceDropLast (s : String) : String :=
  s.toList.dropLast.asString

/-- The POST issued by create_ptr_record. -/
def ptrRequest (reverse_host fqdn ip_address : String) : Request :=
  ⟨"POST", "record:ptr",
    [("_return_fields", .str "name,ptrdname,ipv4addr"), ("_return_as_object", .num 1)],
    [("name", .str reverse_host), ("ptrdname", .str fqdn), ("ipv4addr", .str ip_address)]⟩

/-- client.py lines 542-568: create_ptr_record.  The PTR name is the
reverse-DNS form of the address with the trailing root dot stripped; the
POST carries that name, the FQDN as ptrdname and the address as
ipv4addr, and the result field of the body is returned. -/
def create_ptr_record (o : Oracle) (fqdn ip_address : String) :
    Except String JVal × List Request :=
  match from_address ip_address with
  | none => (.error "dns.exception.SyntaxError", [])
  | some rev =>
    let reverse_host := sliceDropLast rev
    let req := ptrRequest reverse_host fqdn ip_address
    match o req with
    | .error e => (.error e, [req])
    | .ok body =>
      match body with
      | .obj fields => (.ok ((jlookup fields "result").getD .null), [req])
      | _ => (.error "AttributeError", [req])

/-! ## Executor bookkeeping lemmas -/

theorem countSuccess_failures (r : Report) (op : Op) :
    (countSuccess r op).failures = r.failures := by
  cases op <;> rfl

theorem countSuccess_unchanged (r : Report) (op : Op) :
    (countSuccess r op).unchanged = r.unchanged := by
  cases op <;> rfl

theorem countSuccess_sum (r : Report) (op : Op) :
    (countSuccess r op).created + (countSuccess r op).updated + (countSuccess r op).deleted
      + (countSuccess r op).failed
      = r.created + r.updated + r.deleted + r.failed + 1 := by
  cases op <;> simp [countSuccess] <;> omega

theorem countSuccess_deleted (r : Report) (op : Op) :
    (countSuccess r op).deleted = r.deleted + (if isDelete op then 1 else 0) := by
  cases op <;> simp [countSuccess, isDelete]

theorem execOne_ok (f : Op → Except OpError Unit) (r : Report) (op : Op) (v : Unit)
    (hf : f op = .ok v) : execOne f r op = countSuccess r op := by
  unfold execOne
  rw [hf]

theorem execOne_error_nf (f : Op → Except OpError Unit) (r : Report) (op : Op) (e : OpError)
    (hf : f op = .error e) (hd : (isDelete op && (e == OpError.notFound)) = true) :
    execOne f r op = countSuccess r op := by
  unfold execOne
  rw [hf]
  simp [hd]

theorem execOne_error_other (f : Op → Except OpError Unit) (r : Report) (op : Op) (e : OpError)
    (hf : f op = .error e) (hd : (isDelete op && (e == OpError.notFound)) = false) :
    execOne f r op
      = { r with failed := r.failed + 1, failures := r.failures ++ [(op, e)] } := by
  unfold execOne
  rw [hf]
  simp [hd]

theorem opSucceeds_ok (f : Op → Except OpError Unit) (op : Op) (v : Unit)
    (hf : f op = .ok v) : opSucceeds f op = true := by
  unfold opSucceeds
  rw [hf]

theorem opSucceeds_error (f : Op → Except OpError Unit) (op : Op) (e : OpError)
    (hf : f op = .error e) : opSucceeds f op = (isDelete op && (e == OpError.notFound)) := by
  unfold opSucceeds
  rw [hf]

theorem failEntry_ok (f : Op → Except OpError Unit) (op : Op) (v : Unit)
    (hf : f op = .ok v) : failEntry f op = none := by
  unfold failEntry
  rw [hf]

theorem failEntry_error (f : Op → Except OpError Unit) (op : Op) (e : OpError)
    (hf : f op = .error e) :
    failEntry f op
      = if isDelete op && (e == OpError.notFound) then none else some (op, e) := by
  unfold failEntry
  rw [hf]

theorem execOne_sum (f : Op → Except OpError Unit) (r : Report) (op : Op) :
    (execOne f r op).created + (execOne f r op).updated + (execOne f r op).deleted
      + (execOne f r op).failed
      = r.created + r.updated + r.deleted + r.failed + 1 := by
  cases hf : f op with
  | ok v => rw [execOne_ok f r op v hf]; exact countSuccess_sum r op
  | error e =>
    cases hd : (isDelete op && (e == OpError.notFound)) with
    | true => rw [execOne_error_nf f r op e hf hd]; exact countSuccess_sum r op
    | false =>
      rw [execOne_error_other f r op e hf hd]
      dsimp only
      omega

theorem execOne_failures (f : Op → Except OpError Unit) (r : Report) (op : Op) :
    (execOne f r op).failures = r.failures ++ (failEntry f op).toList := by
  cases hf : f op with
  | ok v =>
    rw [execOne_ok f r op v hf, failEntry_ok f op v hf, countSuccess_failures]
    simp
  | error e =>
    cases hd : (isDelete op && (e == OpError.notFound)) with
    | true =>
      rw [execOne_error_nf f r op e hf hd, failEntry_error f op e hf, hd,
        countSuccess_failures]
      simp
    | false =>
      rw [execOne_error_other f r op e hf hd, failEntry_error f op e hf, hd]
      simp

theorem execOne_unchanged (f : Op → Except OpError Unit) (r : Report) (op : Op) :
    (execOne f r op).unchanged = r.unchanged := by
  cases hf : f op with
  | ok v => rw [execOne_ok f r op v hf]; exact countSuccess_unchanged r op
  | error e =>
    cases hd : (isDelete op && (e == OpError.notFound)) with
    | true => rw [execOne_error_nf f r op e hf hd]; exact countSuccess_unchanged r op
    | false => rw [execOne_error_other f r op e hf hd]

theorem execOne_deleted (f : Op → Except OpError Unit) (r : Report) (op : Op) :
    (execOne f r op).deleted
      = r.deleted + (if isDelete op && opSucceeds f op then 1 else 0) := by
  cases hf : f op with
  | ok v =>
    rw [execOne_ok f r op v hf, countSuccess_deleted, opSucceeds_ok f op v hf]
    cases hd : isDelete op <;> simp [hd]
  | error e =>
    rw [opSucceeds_error f op e hf]
    cases hd : (isDelete op && (e == OpError.notFound)) with
    | true =>
      rw [execOne_error_nf f r op e hf hd, countSuccess_deleted]
      have h1 : isDelete op = true := (Bool.and_eq_true_iff.mp hd).1
      simp [h1, hd]
    | false =>
      rw [execOne_error_other f r op e hf hd]
      simp [hd]

theorem foldl_exec_sum (f : Op → Except OpError Unit) (ops : List Op) :
    ∀ r0 : Report,
      (ops.foldl (execOne f) r0).created + (ops.foldl (execOne f) r0).updated
        + (ops.foldl (execOne f) r0).deleted + (ops.foldl (execOne f) r0).failed
      = r0.created + r0.updated + r0.deleted + r0.failed + ops.length := by
  induction ops with
  | nil => intro r0; simp
  | cons op ops ih =>
    intro r0
    rw [List.foldl_cons, List.length_cons, ih (execOne f r0 op), execOne_sum]
    omega

theorem foldl_exec_failures (f : Op → Except OpError Unit) (ops : List Op) :
    ∀ r0 : Report,
      (ops.foldl (execOne f) r0).failures = r0.failures ++ ops.filterMap (failEntry f) := by
  induction ops with
  | nil => intro r0; simp
  | cons op ops ih =>
    intro r0
    rw [List.foldl_cons, ih (execOne f r0 op), execOne_failures, List.filterMap_cons]
    cases failEntry f op <;> simp

theorem foldl_exec_unchanged (f : Op → Except OpError Unit) (ops : List Op) :
    ∀ r0 : Report, (ops.foldl (execOne f) r0).unchanged = r0.unchanged := by
  induction ops with
  | nil => intro r0; rfl
  | cons op ops ih =>
    intro r0
    rw [List.foldl_cons, ih (execOne f r0 op), execOne_unchanged]

theorem foldl_exec_deleted (f : Op → Except OpError Unit) (ops : List Op) :
    ∀ r0 : Report,
      (ops.foldl (execOne f) r0).deleted
        = r0.deleted + (ops.filter (fun x => isDelete x && opSucceeds f x)).length := by
  induction ops with
  | nil => intro r0; simp
  | cons op ops ih =>
    intro r0
    rw [List.foldl_cons, ih (execOne f r0 op), execOne_deleted, List.filter_cons]
    by_cases h : (isDelete op && opSucceeds f op) = true
    · simp [h]
      omega
    · simp [h]

theorem failEntry_map_fst (f : Op → Except OpError Unit) (op : Op) :
    (failEntry f op).map Prod.fst = if opSucceeds f op then none else some op := by
  unfold failEntry opSucceeds
  cases hf : f op with
  | ok _ => simp
  | error e =>
    by_cases hd : (isDelete op && (e == OpError.notFound)) = true
    · simp [hd]
    · simp [hd]

theorem filterMap_if_eq_filter (p : α → Bool) (l : List α) :
    l.filterMap (fun a => if p a then none else some a) = l.filter (fun a => !(p a)) := by
  induction l with
  | nil => rfl
  | cons a l ih => by_cases h : p a = true <;> simp [h, ih]

/-! ## Claim theorems: executor -/

/-- Claim C6: the executor isolates single-operation failures: the run
always yields a report in which created, updated, deleted and failed sum
to the number of emitted operations, the failure list consists exactly of
the non-successful operations, and the successful operations are exactly
those not in the failure list. -/
theorem spec2proof_c6 (f : Op → Except OpError Unit) (ops : List Op) (u : Nat) :
    ((execOps f ops u).created + (execOps f ops u).updated + (execOps f ops u).deleted
        + (execOps f ops u).failed = ops.length)
    ∧ ((execOps f ops u).failures.map Prod.fst = ops.filter (fun op => !(opSucceeds f op)))
    ∧ (ops.filter (fun op => opSucceeds f op)
        = ops.filter (fun op => !(decide (op ∈ (execOps f ops u).failures.map Prod.fst)))) := by
  have hfail : (execOps f ops u).failures.map Prod.fst
      = ops.filter (fun op => !(opSucceeds f op)) := by
    unfold execOps
    rw [foldl_exec_failures]
    have h0 : (initReport u).failures = [] := rfl
    rw [h0, List.nil_append, List.map_filterMap]
    calc ops.filterMap (fun a => (failEntry f a).map Prod.fst)
        = ops.filterMap (fun a => if opSucceeds f a then none else some a) := by
          apply List.filterMap_congr
          intro a _
          exact failEntry_map_fst f a
      _ = ops.filter (fun op => !(opSucceeds f op)) := filterMap_if_eq_filter _ ops
  refine ⟨?_, hfail, ?_⟩
  · unfold execOps
    rw [foldl_exec_sum]
    simp [initReport]
  · apply List.filter_congr
    intro op hop
    rw [hfail]
    by_cases hs : opSucceeds f op = true
    · have : op ∉ ops.filter (fun x => !(opSucceeds f x)) := by
        intro hmem
        have := (List.mem_filter.mp hmem).2
        simp [hs] at this
      simp [hs, this]
    · have hmem : op ∈ ops.filter (fun x => !(opSucceeds f x)) :=
        List.mem_filter.mpr ⟨hop, by simp [hs]⟩
      simp [Bool.eq_false_iff.mpr hs, hmem]

/-- Claim C7: delete is idempotent at the executor boundary: an adapter
not-found error on a delete operation is recorded by the executor as a
success, counted in the deleted total and absent from the failure list. -/
theorem spec2proof_c7 (f : Op → Except OpError Unit) (u : Nat) (ops : List Op) (op : Op)
    (hmem : op ∈ ops) (hdel : isDelete op = true)
    (hnf : f op = .error OpError.notFound) :
    opSucceeds f op = true
    ∧ (execOps f ops u).deleted = (ops.filter (fun x => isDelete x && opSucceeds f x)).length
    ∧ ∀ e, (op, e) ∉ (execOps f ops u).failures := by
  have hsucc : opSucceeds f op = true := by
    unfold opSucceeds
    rw [hnf, hdel]
    rfl
  refine ⟨hsucc, ?_, ?_⟩
  · unfold execOps
    rw [foldl_exec_deleted]
    simp [initReport]
  · intro e hin
    unfold execOps at hin
    rw [foldl_exec_failures] at hin
    have h0 : (initReport u).failures = [] := rfl
    rw [h0, List.nil_append] at hin
    obtain ⟨x, hxmem, hx⟩ := List.mem_filterMap.mp hin
    cases hfx : f x with
    | ok v => rw [failEntry_ok f x v hfx] at hx; exact Option.noConfusion hx
    | error e1 =>
      rw [failEntry_error f x e1 hfx] at hx
      cases hc : (isDelete x && (e1 == OpError.notFound)) with
      | true =>
        rw [hc] at hx
        simp at hx
      | false =>
        rw [hc] at hx
        simp only [Bool.false_eq_true, if_false, Option.some.injEq, Prod.mk.injEq] at hx
        obtain ⟨hxo, hxe⟩ := hx
        rw [hxo, hnf] at hfx
        have he1 : e1 = OpError.notFound := (Except.error.inj hfx).symm
        rw [hxo, hdel, he1] at hc
        simp at hc

/-- Claim C7 witness: a single delete whose adapter call reports not
found is counted as deleted and produces no failure entry. -/
theorem spec2proof_c7_witness :
    opSucceeds (fun _ => .error OpError.notFound) (Op.deleteNet "10.0.0.0/8") = true
    ∧ (execOps (fun _ => .error OpError.notFound) [Op.deleteNet "10.0.0.0/8"] 0).deleted
        = ([Op.deleteNet "10.0.0.0/8"].filter
            (fun x => isDelete x && opSucceeds (fun _ => .error OpError.notFound) x)).length
    ∧ ∀ e, (Op.deleteNet "10.0.0.0/8", e)
        ∉ (execOps (fun _ => .error OpError.notFound) [Op.deleteNet "10.0.0.0/8"] 0).failures :=
  spec2proof_c7 (fun _ => .error OpError.notFound) 0 [Op.deleteNet "10.0.0.0/8"]
    (Op.deleteNet "10.0.0.0/8") (List.mem_singleton.mpr rfl) rfl rfl

/-! ## Claim theorems: data model -/

/-- Claim C2: the data model used for matching and change detection:
a Network is identified solely by its CIDR string and carries no tracked
attribute (the whole record is determined by the identifier), and an
IPAddress is identified by the composite key (address, prefix) with
exactly the two tracked attributes status and dns_name, both optional. -/
theorem spec2proof_c2 :
    Network.identifiers = ["network"]
    ∧ Network.attributes = []
    ∧ IPAddress.identifiers = ["address", "prefix"]
    ∧ IPAddress.attributes = ["status", "dns_name"]
    ∧ (∀ n m : Network, n = m ↔ n.network = m.network)
    ∧ (∀ x y : IPAddress, ipId x = ipId y ↔ (x.address = y.address ∧ x.pfx = y.pfx))
    ∧ (∃ x : IPAddress, x.status = none ∧ x.dns_name = none)
    ∧ (∃ x : IPAddress, x.status ≠ none ∧ x.dns_name ≠ none) := by
  refine ⟨rfl, rfl, rfl, rfl, ?_, ?_, ?_, ?_⟩
  · intro n m
    constructor
    · intro h; rw [h]
    · intro h; cases n; cases m; simpa using h
  · intro x y
    simp [ipId, Prod.ext_iff]
  · exact ⟨⟨"10.220.0.100", "10.220.0.0/22", none, none⟩, rfl, rfl⟩
  · exact ⟨⟨"10.220.0.100", "10.220.0.0/22", some "Active", some "x.test"⟩, by simp, by simp⟩

/-! ## Claim theorems: set symmetry of creates and deletes -/

/-- Claim C5: reconciling network-only snapshots A with identifiers k1,
k2 against B with identifiers k2, k3 (all distinct) emits exactly one
create, for k1 = A minus B, one delete, for k3 = B minus A, and no
update. -/
theorem spec2proof_c5 (k1 k2 k3 : String) (h12 : k1 ≠ k2) (h13 : k1 ≠ k3) (h23 : k2 ≠ k3) :
    runDiff ⟨[⟨k1⟩, ⟨k2⟩], []⟩ ⟨[⟨k2⟩, ⟨k3⟩], []⟩
      = [Op.createNet ⟨k1⟩, Op.deleteNet k3] := by
  have e21 : (k2 == k1) = false := beq_eq_false_iff_ne.mpr (Ne.symm h12)
  have e31 : (k3 == k1) = false := beq_eq_false_iff_ne.mpr (Ne.symm h13)
  have e32 : (k3 == k2) = false := beq_eq_false_iff_ne.mpr (Ne.symm h23)
  have e12 : (k1 == k2) = false := beq_eq_false_iff_ne.mpr h12
  have e13 : (k1 == k3) = false := beq_eq_false_iff_ne.mpr h13
  have e23 : (k2 == k3) = false := beq_eq_false_iff_ne.mpr h23
  simp [runDiff, netCreates, netDeletes, ipCreates, ipDeletes, ipUpdates, ipShared,
    hasNet, hasIp, sortByKey, List.insertionSort, List.orderedInsert,
    e21, e31, e32, e12, e13, e23]

/-- Claim C5 witness: the symmetry instance at concrete identifiers. -/
theorem spec2proof_c5_witness :
    runDiff ⟨[⟨"10.0.1.0/24"⟩, ⟨"10.0.2.0/24"⟩], []⟩ ⟨[⟨"10.0.2.0/24"⟩, ⟨"10.0.3.0/24"⟩], []⟩
      = [Op.createNet ⟨"10.0.1.0/24"⟩, Op.deleteNet "10.0.3.0/24"] :=
  spec2proof_c5 "10.0.1.0/24" "10.0.2.0/24" "10.0.3.0/24"
    (by decide) (by decide) (by decide)

/-! ## Claim theorems: get_dhcp_lease and the dotted-quad pattern -/

/-- The language of the full dotted-quad regular expression: four octets
separated by literal dots. -/
def IsQuadList (m : List Char) : Prop :=
  ∃ o1 o2 o3 o4 : List Char,
    isOctet o1 = true ∧ isOctet o2 = true ∧ isOctet o3 = true ∧ isOctet o4 = true
    ∧ m = o1 ++ '.' :: (o2 ++ '.' :: (o3 ++ '.' :: o4))

/-- The input contains a substring matching the dotted-quad pattern. -/
def ContainsIPv4Quad (s : String) : Prop :=
  ∃ pre m suf : List Char, s.toList = pre ++ m ++ suf ∧ IsQuadList m

theorem matchOctetThen_of (k : List Char → Bool) :
    ∀ o rest : List Char, isOctet o = true → k rest = true →
      matchOctetThen k (o ++ rest) = true := by
  intro o rest ho hk
  match o with
  | [] => simp [isOctet] at ho
  | [a] =>
    match rest with
    | [] => simp [matchOctetThen, ho, hk]
    | [b] => simp [matchOctetThen, ho, hk]
    | b :: c :: t => simp [matchOctetThen, ho, hk]
  | [a, b] =>
    match rest with
    | [] => simp [matchOctetThen, ho, hk]
    | c :: t => simp [matchOctetThen, ho, hk]
  | [a, b, c] => simp [matchOctetThen, ho, hk]
  | a :: b :: c :: d :: t => simp [isOctet] at ho

theorem exists_of_matchOctetThen (k : List Char → Bool) :
    ∀ cs : List Char, matchOctetThen k cs = true →
      ∃ o rest, cs = o ++ rest ∧ isOctet o = true ∧ k rest = true := by
  intro cs h
  match cs with
  | [] => simp [matchOctetThen] at h
  | [a] =>
    simp only [matchOctetThen, Bool.and_eq_true] at h
    exact ⟨[a], [], rfl, h.1, h.2⟩
  | [a, b] =>
    simp only [matchOctetThen, Bool.or_eq_true, Bool.and_eq_true] at h
    rcases h with h | h
    · exact ⟨[a], [b], rfl, h.1, h.2⟩
    · exact ⟨[a, b], [], rfl, h.1, h.2⟩
  | a :: b :: c :: t =>
    simp only [matchOctetThen, Bool.or_eq_true, Bool.and_eq_true] at h
    rcases h with (h | h) | h
    · exact ⟨[a], b :: c :: t, rfl, h.1, h.2⟩
    · exact ⟨[a, b], c :: t, rfl, h.1, h.2⟩
    · exact ⟨[a, b, c], t, rfl, h.1, h.2⟩

theorem matchDotThen_of (k : List Char → Bool) (rest : List Char) (hk : k rest = true) :
    matchDotThen k ('.' :: rest) = true := by
  simp [matchDotThen, hk]

theorem exists_of_matchDotThen (k : List Char → Bool) :
    ∀ cs : List Char, matchDotThen k cs = true →
      ∃ rest, cs = '.' :: rest ∧ k rest = true := by
  intro cs h
  match cs with
  | [] => simp [matchDotThen] at h
  | c :: rest =>
    simp only [matchDotThen, Bool.and_eq_true, beq_iff_eq] at h
    exact ⟨rest, by rw [h.1], h.2⟩

theorem quadAt_append_of (m : List Char) (hm : IsQuadList m) (suf : List Char) :
    quadAt (m ++ suf) = true := by
  obtain ⟨o1, o2, o3, o4, h1, h2, h3, h4, rfl⟩ := hm
  unfold quadAt
  simp only [List.append_assoc, List.cons_append]
  exact matchOctetThen_of _ o1 _ h1
    (matchDotThen_of _ _ (matchOctetThen_of _ o2 _ h2
      (matchDotThen_of _ _ (matchOctetThen_of _ o3 _ h3
        (matchDotThen_of _ _ (matchOctetThen_of _ o4 suf h4 rfl))))))

theorem exists_of_quadAt (cs : List Char) (h : quadAt cs = true) :
    ∃ m suf, cs = m ++ suf ∧ IsQuadList m := by
  unfold quadAt at h
  obtain ⟨o1, r1, e1, ho1, h1⟩ := exists_of_matchOctetThen _ _ h
  obtain ⟨r2, e2, h2⟩ := exists_of_matchDotThen _ _ h1
  obtain ⟨o2, r3, e3, ho2, h3⟩ := exists_of_matchOctetThen _ _ h2
  obtain ⟨r4, e4, h4⟩ := exists_of_matchDotThen _ _ h3
  obtain ⟨o3, r5, e5, ho3, h5⟩ := exists_of_matchOctetThen _ _ h4
  obtain ⟨r6, e6, h6⟩ := exists_of_matchDotThen _ _ h5
  obtain ⟨o4, r7, e7, ho4, _⟩ := exists_of_matchOctetThen _ _ h6
  refine ⟨o1 ++ '.' :: (o2 ++ '.' :: (o3 ++ '.' :: o4)), r7, ?_,
    o1, o2, o3, o4, ho1, ho2, ho3, ho4, rfl⟩
  rw [e1, e2, e3, e4, e5, e6, e7]
  simp [List.append_assoc, List.cons_append]

theorem IsQuadList.ne_nil (m : List Char) (hm : IsQuadList m) : m ≠ [] := by
  obtain ⟨o1, o2, o3, o4, _, _, _, _, rfl⟩ := hm
  intro h
  have := List.append_eq_nil.mp h
  exact List.noConfusion this.2

theorem containsQuad_iff_exists :
    ∀ cs : List Char,
      containsQuad cs = true ↔ ∃ pre m suf, cs = pre ++ m ++ suf ∧ IsQuadList m := by
  intro cs
  induction cs with
  | nil =>
    constructor
    · intro h
      simp [containsQuad] at h
    · rintro ⟨pre, m, suf, heq, hq⟩
      exfalso
      have h1 := List.append_eq_nil.mp (List.append_eq_nil.mp heq.symm).1
      exact IsQuadList.ne_nil m hq h1.2
  | cons c rest ih =>
    constructor
    · intro h
      rcases Bool.or_eq_true_iff.mp h with hq | hr
      · obtain ⟨m, suf, heq, hquad⟩ := exists_of_quadAt _ hq
        exact ⟨[], m, suf, by simpa using heq, hquad⟩
      · obtain ⟨pre, m, suf, heq, hquad⟩ := ih.mp hr
        exact ⟨c :: pre, m, suf, by simp [heq], hquad⟩
    · rintro ⟨pre, m, suf, heq, hquad⟩
      show (quadAt (c :: rest) || containsQuad rest) = true
      cases pre with
      | nil =>
        apply Bool.or_eq_true_iff.mpr
        left
        rw [show c :: rest = m ++ suf by simpa using heq]
        exact quadAt_append_of m hquad suf
      | cons p ps =>
        apply Bool.or_eq_true_iff.mpr
        right
        have heq2 : rest = ps ++ m ++ suf := by
          have : c :: rest = p :: (ps ++ m ++ suf) := by simpa using heq
          exact (List.cons.inj this).2
        exact ih.mpr ⟨ps, m, suf, heq2, hquad⟩

/-- Claim C8: get_dhcp_lease issues no request and returns the one-element
ACTIVE demo record exactly when its argument contains an IPv4 dotted-quad
substring of the regular expression, and the STATIC demo record
otherwise. -/
theorem spec2proof_c8 (s : String) :
    (get_dhcp_lease s).2 = []
    ∧ (ContainsIPv4Quad s → (get_dhcp_lease s).1 = [activeLeaseDemo])
    ∧ (¬ ContainsIPv4Quad s → (get_dhcp_lease s).1 = [staticLeaseDemo]) := by
  refine ⟨?_, ?_, ?_⟩
  · unfold get_dhcp_lease
    split <;> rfl
  · intro h
    have hc : containsQuad s.toList = true := (containsQuad_iff_exists s.toList).mpr h
    unfold get_dhcp_lease
    rw [hc]
    simp
  · intro h
    have hc : containsQuad s.toList = false := by
      cases hcq : containsQuad s.toList
      · rfl
      · exact absurd ((containsQuad_iff_exists s.toList).mp hcq) h
    unfold get_dhcp_lease
    rw [hc]
    simp

/-- Claim C8 witness: an argument containing a dotted quad yields the
ACTIVE demo lease, a hostname yields the STATIC demo lease, and no
request is issued. -/
theorem spec2proof_c8_witness :
    (get_dhcp_lease "10.220.0.101").2 = []
    ∧ (get_dhcp_lease "10.220.0.101").1 = [activeLeaseDemo]
    ∧ (get_dhcp_lease "testdevice1.test").1 = [staticLeaseDemo] := by
  refine ⟨(spec2proof_c8 "10.220.0.101").1,
    (spec2proof_c8 "10.220.0.101").2.1 ?_,
    (spec2proof_c8 "testdevice1.test").2.2 ?_⟩
  · unfold ContainsIPv4Quad IsQuadList
    exact ⟨[], ['1','0','.','2','2','0','.','0','.','1','0','1'], [], by decide,
      ['1','0'], ['2','2','0'], ['0'], ['1','0','1'],
      by decide, by decide, by decide, by decide, by decide⟩
  · intro h
    have hc := (containsQuad_iff_exists "testdevice1.test".toList).mpr h
    exact absurd hc (by decide)

/-! ## Claim theorems: find_next_available_ip and reserve_fixed_address -/

/-- Whether a response body is a non-empty Python list. -/
def isNonEmptyList : JVal → Bool
  | .arr (_ :: _) => true
  | _ => false

/-- Claim C9: find_next_available_ip returns the empty string with no
next_available_ip request whenever the network-reference lookup raises or
does not yield a non-empty list; reserve_fixed_address returns False with
no fixedaddress request whenever the next available address is falsy, and
otherwise returns the reserved address from the creation response. -/
theorem spec2proof_c9 :
    (∀ (o : Oracle) (network : String),
      (∀ v, o (netRefRequest network) = .ok v → isNonEmptyList v = false) →
      find_next_available_ip o network = (.ok (.str ""), [netRefRequest network]))
    ∧ (∀ (o : Oracle) (network mac : String) (ip : JVal) (reqs : List Request),
      find_next_available_ip o network = (.ok ip, reqs) → pyTruthy ip = false →
      reserve_fixed_address o network mac = (.ok (.boolean false), reqs))
    ∧ (∀ (o : Oracle) (network mac : String) (ip : JVal) (reqs : List Request)
        (fields rfields : List (String × JVal)) (v : JVal),
      find_next_available_ip o network = (.ok ip, reqs) → pyTruthy ip = true →
      o (fixedAddressRequest ip mac) = .ok (.obj fields) →
      jlookup fields "result" = some (.obj rfields) →
      jlookup rfields "ipv4addr" = some v →
      reserve_fixed_address o network mac = (.ok v, reqs ++ [fixedAddressRequest ip mac])) := by
  refine ⟨?_, ?_, ?_⟩
  · intro o network h
    unfold find_next_available_ip find_network_reference
    cases ho : o (netRefRequest network) with
    | error e => rfl
    | ok v =>
      have hv := h v ho
      cases v with
      | str s => rfl
      | num n => rfl
      | boolean b => rfl
      | null => rfl
      | obj fs => rfl
      | arr xs =>
        cases xs with
        | nil => rfl
        | cons x t => simp [isNonEmptyList] at hv
  · intro o network mac ip reqs hfind hfalse
    unfold reserve_fixed_address
    rw [hfind]
    simp [hfalse]
  · intro o network mac ip reqs fields rfields v hfind htrue hok hres hipv
    unfold reserve_fixed_address
    rw [hfind]
    simp [htrue, hok, hres, hipv]

/-! ## Claim theorems: create_ptr_record -/

theorem splitDots_ne_nil : ∀ cs : List Char, splitDots cs ≠ []
  | [] => by simp [splitDots]
  | c :: rest => by
    unfold splitDots
    cases splitDots rest with
    | nil => simp
    | cons h t =>
      by_cases hc : c = '.' <;> simp [hc]

theorem splitDots_cons (c : Char) (rest : List Char) :
    splitDots (c :: rest)
      = match splitDots rest with
        | [] => [[c]]
        | h :: t => if c = '.' then [] :: h :: t else (c :: h) :: t := rfl

theorem splitDots_no_dot (cs : List Char) (h : ∀ ch ∈ cs, ch ≠ '.') :
    splitDots cs = [cs] := by
  induction cs with
  | nil => rfl
  | cons c rest ih =>
    have hrest : splitDots rest = [rest] := ih (fun ch hm => h ch (List.mem_cons_of_mem c hm))
    rw [splitDots_cons, hrest]
    have hc : ¬ c = '.' := h c (List.mem_cons_self c rest)
    simp [hc]

theorem splitDots_append (cs rest : List Char) (h : ∀ ch ∈ cs, ch ≠ '.') :
    splitDots (cs ++ '.' :: rest) = cs :: splitDots rest := by
  induction cs with
  | nil =>
    simp only [List.nil_append]
    rw [splitDots_cons]
    cases hrs : splitDots rest with
    | nil => exact absurd hrs (splitDots_ne_nil rest)
    | cons hh tt => simp
  | cons c cs2 ih =>
    have ih2 := ih (fun ch hm => h ch (List.mem_cons_of_mem c hm))
    show splitDots (c :: (cs2 ++ '.' :: rest)) = (c :: cs2) :: splitDots rest
    rw [splitDots_cons, ih2]
    have hc : ¬ c = '.' := h c (List.mem_cons_self c cs2)
    simp [hc]

theorem no_dot_of_valid (s : String) (hv : validOctetStr s = true) :
    ∀ ch ∈ s.toList, ch ≠ '.' := by
  intro ch hm
  have hall : s.toList.all Char.isDigit = true := by
    unfold validOctetStr at hv
    simp only [Bool.and_eq_true] at hv
    exact hv.1.1.2
  have hd : ch.isDigit = true := List.all_eq_true.mp hall ch hm
  intro hdot
  rw [hdot] at hd
  simp [Char.isDigit] at hd

theorem toList_quad (a b c d : String) :
    (a ++ "." ++ b ++ "." ++ c ++ "." ++ d).toList
      = a.toList ++ '.' :: (b.toList ++ '.' :: (c.toList ++ '.' :: d.toList)) := by
  simp [String.toList]

theorem from_address_quad (a b c d : String)
    (ha : validOctetStr a = true) (hb : validOctetStr b = true)
    (hc : validOctetStr c = true) (hd : validOctetStr d = true) :
    from_address (a ++ "." ++ b ++ "." ++ c ++ "." ++ d)
      = some (d ++ "." ++ c ++ "." ++ b ++ "." ++ a ++ ".in-addr.arpa.") := by
  unfold from_address
  rw [toList_quad,
    splitDots_append _ _ (no_dot_of_valid a ha),
    splitDots_append _ _ (no_dot_of_valid b hb),
    splitDots_append _ _ (no_dot_of_valid c hc),
    splitDots_no_dot _ (no_dot_of_valid d hd)]
  simp only [List.map_cons, List.map_nil, String.asString_toList]
  rw [if_pos (by simp [ha, hb, hc, hd])]

theorem sliceDropLast_append_dot (x : String) : sliceDropLast (x ++ ".") = x := by
  unfold sliceDropLast
  have h1 : (x ++ ".").toList.dropLast = x.toList := by simp [String.toList]
  rw [h1, String.asString_toList]

/-- Claim C10: for every valid IPv4 dotted quad, create_ptr_record issues
exactly one POST whose PTR name is the reverse-DNS in-addr.arpa form of
the address with the trailing root dot stripped, carrying the FQDN as
ptrdname and the address as ipv4addr. -/
theorem spec2proof_c10 (o : Oracle) (fqdn a b c d : String)
    (ha : validOctetStr a = true) (hb : validOctetStr b = true)
    (hc : validOctetStr c = true) (hd : validOctetStr d = true) :
    (create_ptr_record o fqdn (a ++ "." ++ b ++ "." ++ c ++ "." ++ d)).2
      = [ptrRequest (d ++ "." ++ c ++ "." ++ b ++ "." ++ a ++ ".in-addr.arpa") fqdn
          (a ++ "." ++ b ++ "." ++ c ++ "." ++ d)] := by
  unfold create_ptr_record
  rw [from_address_quad a b c d ha hb hc hd]
  have hstrip : sliceDropLast (d ++ "." ++ c ++ "." ++ b ++ "." ++ a ++ ".in-addr.arpa.")
      = d ++ "." ++ c ++ "." ++ b ++ "." ++ a ++ ".in-addr.arpa" := by
    have hsplit2 : (d ++ "." ++ c ++ "." ++ b ++ "." ++ a ++ ".in-addr.arpa." : String)
        = (d ++ "." ++ c ++ "." ++ b ++ "." ++ a ++ ".in-addr.arpa") ++ "." := by
      have : (".in-addr.arpa." : String) = ".in-addr.arpa" ++ "." := rfl
      rw [this, ← String.append_assoc]
    rw [hsplit2, sliceDropLast_append_dot]
  dsimp only
  rw [hstrip]
  cases hor : o (ptrRequest (d ++ "." ++ c ++ "." ++ b ++ "." ++ a ++ ".in-addr.arpa") fqdn
      (a ++ "." ++ b ++ "." ++ c ++ "." ++ d)) with
  | error e => rfl
  | ok body => cases body <;> rfl

/-- An oracle whose every request raises, for concrete instantiation. -/
def oracleFail : Oracle := fun _ => .error "requests.exceptions.ConnectionError"

/-- The network reference path used in the concrete demo oracle. -/
def demoRefPath : String :=
  "network/ZG5zLm5ldHdvcmskMTAuMjIwLjAuMC8yMi8w:10.220.0.0/22/default"

/-- A concrete appliance oracle: the reference lookup yields one network
record, the next_available_ip call yields one address, and the
fixedaddress POST confirms it. -/
def oracleDemo : Oracle := fun r =>
  if r.path == "network" then .ok (.arr [.obj [("_ref", .str demoRefPath)]])
  else if r.path == demoRefPath then .ok (.obj [("ips", .arr [.str "10.220.0.1"])])
  else .ok (.obj [("result", .obj [("ipv4addr", .str "10.220.0.1")])])

/-- Claim C9 witness: a raising lookup yields the empty string and one
GET only; the falsy result makes reserve_fixed_address return False with
no further request; a successful chain returns the reserved address. -/
theorem spec2proof_c9_witness :
    find_next_available_ip oracleFail "10.220.0.0/22"
      = (.ok (.str ""), [netRefRequest "10.220.0.0/22"])
    ∧ reserve_fixed_address oracleFail "10.220.0.0/22" "52:1f:83:d4:9a:2e"
      = (.ok (.boolean false), [netRefRequest "10.220.0.0/22"])
    ∧ reserve_fixed_address oracleDemo "10.220.0.0/22" "52:1f:83:d4:9a:2e"
      = (.ok (.str "10.220.0.1"),
          [netRefRequest "10.220.0.0/22", nextIpRequest demoRefPath,
           fixedAddressRequest (.str "10.220.0.1") "52:1f:83:d4:9a:2e"]) := by
  have h1 : find_next_available_ip oracleFail "10.220.0.0/22"
      = (.ok (.str ""), [netRefRequest "10.220.0.0/22"]) :=
    spec2proof_c9.1 oracleFail "10.220.0.0/22" (fun v hv => Except.noConfusion hv)
  have hfindDemo : find_next_available_ip oracleDemo "10.220.0.0/22"
      = (.ok (.str "10.220.0.1"), [netRefRequest "10.220.0.0/22", nextIpRequest demoRefPath]) := by
    rfl
  refine ⟨h1, spec2proof_c9.2.1 oracleFail "10.220.0.0/22" "52:1f:83:d4:9a:2e"
      (.str "") [netRefRequest "10.220.0.0/22"] h1 rfl, ?_⟩
  exact spec2proof_c9.2.2 oracleDemo "10.220.0.0/22" "52:1f:83:d4:9a:2e"
    (.str "10.220.0.1") [netRefRequest "10.220.0.0/22", nextIpRequest demoRefPath]
    [("result", .obj [("ipv4addr", .str "10.220.0.1")])]
    [("ipv4addr", .str "10.220.0.1")] (.str "10.220.0.1")
    hfindDemo rfl rfl rfl rfl

/-- Claim C10 witness: the address 10.223.9.96 yields the PTR name
96.9.223.10.in-addr.arpa in the single POST issued. -/
theorem spec2proof_c10_witness :
    validOctetStr "10" = true
    ∧ (create_ptr_record oracleFail "r4.test" ("10" ++ "." ++ "223" ++ "." ++ "9" ++ "." ++ "96")).2
      = [ptrRequest ("96" ++ "." ++ "9" ++ "." ++ "223" ++ "." ++ "10" ++ ".in-addr.arpa")
          "r4.test" ("10" ++ "." ++ "223" ++ "." ++ "9" ++ "." ++ "96")] :=
  ⟨by decide,
   spec2proof_c10 oracleFail "r4.test" "10" "223" "9" "96"
     (by decide) (by decide) (by decide) (by decide)⟩

/-! ## Claim theorems: absence normalization -/

theorem findIp_eq_of_mem (l : List IPAddress) (b : IPAddress) (ad pf : String)
    (hN : (l.map ipId).Nodup) (hb : b ∈ l) (had : b.address = ad) (hpf : b.pfx = pf) :
    findIp l ad pf = some b := by
  induction l with
  | nil => exact absurd hb (List.not_mem_nil b)
  | cons x t ih =>
    unfold findIp
    have hstep : List.find? (fun y => y.address == ad && y.pfx == pf) (x :: t)
        = cond (x.address == ad && x.pfx == pf) (some x)
            (List.find? (fun y => y.address == ad && y.pfx == pf) t) := rfl
    cases hp : (x.address == ad && x.pfx == pf) with
    | true =>
      rw [hstep, hp, cond_true]
      simp only [Bool.and_eq_true, beq_iff_eq] at hp
      have hid : ipId x = ipId b := by
        unfold ipId
        rw [hp.1, hp.2, had, hpf]
      have := List.inj_on_of_nodup_map hN (List.mem_cons_self x t) hb hid
      rw [this]
    | false =>
      rw [hstep, hp, cond_false]
      have hbx : b ≠ x := by
        intro hbe
        rw [hbe] at had hpf
        rw [had, hpf] at hp
        simp at hp
      have hbt : b ∈ t := (List.mem_cons.mp hb).resolve_left hbx
      have hNt : (t.map ipId).Nodup := by
        rw [List.map_cons] at hN
        exact (List.nodup_cons.mp hN).2
      exact ih hNt hbt

theorem ipUpdates_mem (A B : Snapshot) (u : IpUpdate) (hu : u ∈ ipUpdates A B) :
    ∃ src tgt, src ∈ A.ips ∧ hasIp B.ips src.address src.pfx = true
      ∧ findIp B.ips src.address src.pfx = some tgt
      ∧ ipUpdateFor src tgt = some u := by
  obtain ⟨src, hsrc, hmatch⟩ := List.mem_filterMap.mp hu
  have hsrc2 : src ∈ A.ips.filter (fun x => hasIp B.ips x.address x.pfx) :=
    (mem_sortByKey _ _ src).mp hsrc
  have hsrcA : src ∈ A.ips := (List.mem_filter.mp hsrc2).1
  have hsh : hasIp B.ips src.address src.pfx = true := (List.mem_filter.mp hsrc2).2
  cases hf : findIp B.ips src.address src.pfx with
  | none => rw [hf] at hmatch; exact Option.noConfusion hmatch
  | some tgt =>
    rw [hf] at hmatch
    exact ⟨src, tgt, hsrcA, hsh, hf, hmatch⟩

theorem ipUpdateFor_fields (src tgt : IPAddress) (u : IpUpdate)
    (h : ipUpdateFor src tgt = some u) :
    u.address = src.address ∧ u.pfx = src.pfx
      ∧ u.statusChange = fieldDiff tgt.status src.status
      ∧ u.dnsChange = fieldDiff tgt.dns_name src.dns_name := by
  unfold ipUpdateFor at h
  cases hsc : fieldDiff tgt.status src.status with
  | none =>
    cases hdc : fieldDiff tgt.dns_name src.dns_name with
    | none =>
      simp only [hsc, hdc] at h
      exact Option.noConfusion h
    | some v2 =>
      simp only [hsc, hdc, Option.some.injEq] at h
      subst h
      exact ⟨rfl, rfl, by simp [hsc], by simp [hdc]⟩
  | some v1 =>
    cases hdc : fieldDiff tgt.dns_name src.dns_name with
    | none =>
      simp only [hsc, hdc, Option.some.injEq] at h
      subst h
      exact ⟨rfl, rfl, by simp [hsc], by simp [hdc]⟩
    | some v2 =>
      simp only [hsc, hdc, Option.some.injEq] at h
      subst h
      exact ⟨rfl, rfl, by simp [hsc], by simp [hdc]⟩

theorem mem_updateIp_of_mem_runDiff (A B : Snapshot) (u : IpUpdate)
    (hu : Op.updateIp u ∈ runDiff A B) : u ∈ ipUpdates A B := by
  unfold runDiff at hu
  rcases List.mem_append.mp hu with h | h
  swap
  · obtain ⟨x, _, hx⟩ := List.mem_map.mp h
    exact Op.noConfusion hx
  rcases List.mem_append.mp h with h | h
  swap
  · obtain ⟨x, _, hx⟩ := List.mem_map.mp h
    exact Op.noConfusion hx
  rcases List.mem_append.mp h with h | h
  swap
  · obtain ⟨x, hxm, hx⟩ := List.mem_map.mp h
    have hxu : x = u := Op.updateIp.inj hx
    rw [hxu] at hxm
    exact hxm
  rcases List.mem_append.mp h with h | h
  · obtain ⟨x, _, hx⟩ := List.mem_map.mp h
    exact Op.noConfusion hx
  · obtain ⟨x, _, hx⟩ := List.mem_map.mp h
    exact Op.noConfusion hx

/-- Claim C1: an IPAddress present in both snapshots under the same
identifier with dns_name the empty string on one side and unset on the
other yields no dns_name change in any emitted update operation: empty
string and absence normalize to the same canonical absence marker. -/
theorem spec2proof_c1 (A B : Snapshot) (a b : IPAddress) (u : IpUpdate)
    (hA : (A.ips.map ipId).Nodup) (hB : (B.ips.map ipId).Nodup)
    (ha : a ∈ A.ips) (hb : b ∈ B.ips)
    (had : b.address = a.address) (hpf : b.pfx = a.pfx)
    (hdns : (a.dns_name = some "" ∧ b.dns_name = none)
      ∨ (a.dns_name = none ∧ b.dns_name = some ""))
    (hu : Op.updateIp u ∈ runDiff A B)
    (hua : u.address = a.address) (hup : u.pfx = a.pfx) :
    u.dnsChange = none := by
  have hu2 := mem_updateIp_of_mem_runDiff A B u hu
  obtain ⟨src, tgt, hsrcA, _, hfind, hupd⟩ := ipUpdates_mem A B u hu2
  obtain ⟨hus, hupf, _, hudns⟩ := ipUpdateFor_fields src tgt u hupd
  have hsrc_a : src = a := by
    apply List.inj_on_of_nodup_map hA hsrcA ha
    unfold ipId
    rw [← hus, ← hupf, hua, hup]
  rw [hsrc_a] at hfind
  have hfb : findIp B.ips a.address a.pfx = some b :=
    findIp_eq_of_mem B.ips b a.address a.pfx hB hb had hpf
  have htgt_b : tgt = b := Option.some.inj (hfind.symm.trans hfb)
  rw [hudns, htgt_b, hsrc_a]
  unfold fieldDiff
  rcases hdns with ⟨hda, hdb⟩ | ⟨hda, hdb⟩ <;>
    rw [hda, hdb] <;> simp [normAttr]

/-- Claim C1 witness: with dns_name empty on the source and unset on the
target and a differing status, the emitted update changes only status. -/
theorem spec2proof_c1_witness :
    (⟨"10.0.0.5", "10.0.0.0/24", some ⟨some "Reserved", some "Active"⟩, none⟩ : IpUpdate).dnsChange
      = none
    ∧ Op.updateIp ⟨"10.0.0.5", "10.0.0.0/24", some ⟨some "Reserved", some "Active"⟩, none⟩
      ∈ runDiff ⟨[], [⟨"10.0.0.5", "10.0.0.0/24", some "Active", some ""⟩]⟩
          ⟨[], [⟨"10.0.0.5", "10.0.0.0/24", some "Reserved", none⟩]⟩ := by
  refine ⟨spec2proof_c1
      ⟨[], [⟨"10.0.0.5", "10.0.0.0/24", some "Active", some ""⟩]⟩
      ⟨[], [⟨"10.0.0.5", "10.0.0.0/24", some "Reserved", none⟩]⟩
      ⟨"10.0.0.5", "10.0.0.0/24", some "Active", some ""⟩
      ⟨"10.0.0.5", "10.0.0.0/24", some "Reserved", none⟩
      ⟨"10.0.0.5", "10.0.0.0/24", some ⟨some "Reserved", some "Active"⟩, none⟩
      (by decide) (by decide) (by decide) (by decide) rfl rfl
      (Or.inl ⟨rfl, rfl⟩) (by decide) rfl rfl, by decide⟩

/-! ## Claim theorems: operation ordering -/

/-- Whether an operation is a network create. -/
def isCreateNetOp : Op → Bool
  | .createNet _ => true
  | _ => false

/-- Whether an operation is an address create. -/
def isCreateIpOp : Op → Bool
  | .createIp _ => true
  | _ => false

/-- Whether an operation is a network delete. -/
def isDeleteNetOp : Op → Bool
  | .deleteNet _ => true
  | _ => false

/-- Whether an operation is an address delete. -/
def isDeleteIpOp : Op → Bool
  | .deleteIp _ _ => true
  | _ => false

/-- The position of the operation kind in the emission order. -/
def opSegment : Op → Nat
  | .createNet _ => 0
  | .createIp _ => 1
  | .updateIp _ => 2
  | .deleteIp _ _ => 3
  | .deleteNet _ => 4

/-- The identifier string an operation carries. -/
def opKey : Op → String
  | .createNet n => n.network
  | .createIp x => ipKey x
  | .updateIp u => u.address ++ " " ++ u.pfx
  | .deleteIp ad pf => ad ++ " " ++ pf
  | .deleteNet k => k

/-- The ordering invariant between two operations emitted in this order:
no address create precedes a network create, no network delete precedes
an address delete, and equal kinds are ascending by identifier. -/
def OpOrd (x y : Op) : Prop :=
  (¬(isCreateIpOp x = true ∧ isCreateNetOp y = true))
  ∧ (¬(isDeleteNetOp x = true ∧ isDeleteIpOp y = true))
  ∧ (opSegment x = opSegment y → strLe (opKey x) (opKey y) = true)

theorem opOrd_of_segment_lt (x y : Op) (h : opSegment x < opSegment y) : OpOrd x y := by
  refine ⟨?_, ?_, ?_⟩
  · rintro ⟨hx, hy⟩
    cases x <;> simp [isCreateIpOp] at hx
    cases y <;> simp [isCreateNetOp] at hy
    simp [opSegment] at h
  · rintro ⟨hx, hy⟩
    cases x <;> simp [isDeleteNetOp] at hx
    cases y <;> simp [isDeleteIpOp] at hy
    simp [opSegment] at h
  · intro hseg
    rw [hseg] at h
    exact absurd h (lt_irrefl _)

theorem pairwise_seg1 (A B : Snapshot) :
    List.Pairwise OpOrd ((netCreates A B).map Op.createNet) := by
  rw [List.pairwise_map]
  apply List.Pairwise.imp ?_ (sortByKey_sorted netKey (A.nets.filter (fun n => !(hasNet B.nets n.network))))
  intro a b hab
  exact ⟨by simp [isCreateIpOp], by simp [isDeleteNetOp], fun _ => hab⟩

theorem pairwise_seg2 (A B : Snapshot) :
    List.Pairwise OpOrd ((ipCreates A B).map Op.createIp) := by
  rw [List.pairwise_map]
  apply List.Pairwise.imp ?_ (sortByKey_sorted ipKey (A.ips.filter (fun x => !(hasIp B.ips x.address x.pfx))))
  intro a b hab
  exact ⟨by simp [isCreateIpOp, isCreateNetOp], by simp [isDeleteNetOp], fun _ => hab⟩

theorem updFn_fields (B : Snapshot) (src : IPAddress) (u : IpUpdate)
    (h : (match findIp B.ips src.address src.pfx with
          | some tgt => ipUpdateFor src tgt
          | none => none) = some u) :
    u.address = src.address ∧ u.pfx = src.pfx := by
  cases hf : findIp B.ips src.address src.pfx with
  | none => rw [hf] at h; exact Option.noConfusion h
  | some tgt =>
    rw [hf] at h
    obtain ⟨h1, h2, _, _⟩ := ipUpdateFor_fields src tgt u h
    exact ⟨h1, h2⟩

theorem pairwise_seg3 (A B : Snapshot) :
    List.Pairwise OpOrd ((ipUpdates A B).map Op.updateIp) := by
  rw [List.pairwise_map]
  unfold ipUpdates
  rw [List.pairwise_filterMap]
  apply List.Pairwise.imp ?_ (sortByKey_sorted ipKey (A.ips.filter (fun x => hasIp B.ips x.address x.pfx)))
  intro a b hab
  intro x hx y hy
  obtain ⟨hxa, hxp⟩ := updFn_fields B a x hx
  obtain ⟨hya, hyp⟩ := updFn_fields B b y hy
  refine ⟨by simp [isCreateIpOp, isCreateNetOp], by simp [isDeleteNetOp], fun _ => ?_⟩
  show strLe (x.address ++ " " ++ x.pfx) (y.address ++ " " ++ y.pfx) = true
  rw [hxa, hxp, hya, hyp]
  exact hab

theorem pairwise_seg4 (A B : Snapshot) :
    List.Pairwise OpOrd ((ipDeletes A B).map (fun x => Op.deleteIp x.address x.pfx)) := by
  rw [List.pairwise_map]
  apply List.Pairwise.imp ?_ (sortByKey_sorted ipKey (B.ips.filter (fun x => !(hasIp A.ips x.address x.pfx))))
  intro a b hab
  refine ⟨by simp [isCreateIpOp], by simp [isDeleteNetOp], fun _ => ?_⟩
  exact hab

theorem pairwise_seg5 (A B : Snapshot) :
    List.Pairwise OpOrd ((netDeletes A B).map (fun n => Op.deleteNet n.network)) := by
  rw [List.pairwise_map]
  apply List.Pairwise.imp ?_ (sortByKey_sorted netKey (B.nets.filter (fun n => !(hasNet A.nets n.network))))
  intro a b hab
  refine ⟨by simp [isCreateIpOp], by simp [isDeleteNetOp, isDeleteIpOp], fun _ => ?_⟩
  exact hab

theorem segment_of_mem_seg1 (A B : Snapshot) (x : Op)
    (h : x ∈ (netCreates A B).map Op.createNet) : opSegment x = 0 := by
  obtain ⟨n, _, rfl⟩ := List.mem_map.mp h
  rfl

theorem segment_of_mem_seg2 (A B : Snapshot) (x : Op)
    (h : x ∈ (ipCreates A B).map Op.createIp) : opSegment x = 1 := by
  obtain ⟨n, _, rfl⟩ := List.mem_map.mp h
  rfl

theorem segment_of_mem_seg3 (A B : Snapshot) (x : Op)
    (h : x ∈ (ipUpdates A B).map Op.updateIp) : opSegment x = 2 := by
  obtain ⟨n, _, rfl⟩ := List.mem_map.mp h
  rfl

theorem segment_of_mem_seg4 (A B : Snapshot) (x : Op)
    (h : x ∈ (ipDeletes A B).map (fun x => Op.deleteIp x.address x.pfx)) :
    opSegment x = 3 := by
  obtain ⟨n, _, rfl⟩ := List.mem_map.mp h
  rfl

theorem segment_of_mem_seg5 (A B : Snapshot) (x : Op)
    (h : x ∈ (netDeletes A B).map (fun n => Op.deleteNet n.network)) :
    opSegment x = 4 := by
  obtain ⟨n, _, rfl⟩ := List.mem_map.mp h
  rfl

theorem pairwise_runDiff (A B : Snapshot) : List.Pairwise OpOrd (runDiff A B) := by
  unfold runDiff
  refine List.pairwise_append.mpr ⟨?_, pairwise_seg5 A B, ?_⟩
  swap
  · intro a ha b hb
    apply opOrd_of_segment_lt
    rw [segment_of_mem_seg5 A B b hb]
    rcases List.mem_append.mp ha with h | h
    · rcases List.mem_append.mp h with h | h
      · rcases List.mem_append.mp h with h | h
        · rw [segment_of_mem_seg1 A B a h]; omega
        · rw [segment_of_mem_seg2 A B a h]; omega
      · rw [segment_of_mem_seg3 A B a h]; omega
    · rw [segment_of_mem_seg4 A B a h]; omega
  refine List.pairwise_append.mpr ⟨?_, pairwise_seg4 A B, ?_⟩
  swap
  · intro a ha b hb
    apply opOrd_of_segment_lt
    rw [segment_of_mem_seg4 A B b hb]
    rcases List.mem_append.mp ha with h | h
    · rcases List.mem_append.mp h with h | h
      · rw [segment_of_mem_seg1 A B a h]; omega
      · rw [segment_of_mem_seg2 A B a h]; omega
    · rw [segment_of_mem_seg3 A B a h]; omega
  refine List.pairwise_append.mpr ⟨?_, pairwise_seg3 A B, ?_⟩
  swap
  · intro a ha b hb
    apply opOrd_of_segment_lt
    rw [segment_of_mem_seg3 A B b hb]
    rcases List.mem_append.mp ha with h | h
    · rw [segment_of_mem_seg1 A B a h]; omega
    · rw [segment_of_mem_seg2 A B a h]; omega
  refine List.pairwise_append.mpr ⟨pairwise_seg1 A B, pairwise_seg2 A B, ?_⟩
  intro a ha b hb
  apply opOrd_of_segment_lt
  rw [segment_of_mem_seg2 A B b hb, segment_of_mem_seg1 A B a ha]
  omega

/-- Claim C3: in every emitted operation list, every network create
precedes every address create, every address delete precedes every
network delete, and two operations of the same kind and operation type
appear in ascending lexicographic order of their identifier strings. -/
theorem spec2proof_c3 (A B : Snapshot) :
    (∀ (i j : Nat) (hi : i < (runDiff A B).length) (hj : j < (runDiff A B).length),
      isCreateNetOp ((runDiff A B)[i]) = true → isCreateIpOp ((runDiff A B)[j]) = true →
      i < j)
    ∧ (∀ (i j : Nat) (hi : i < (runDiff A B).length) (hj : j < (runDiff A B).length),
      isDeleteIpOp ((runDiff A B)[i]) = true → isDeleteNetOp ((runDiff A B)[j]) = true →
      i < j)
    ∧ (∀ (i j : Nat) (hi : i < (runDiff A B).length) (hj : j < (runDiff A B).length),
      i < j → opSegment ((runDiff A B)[i]) = opSegment ((runDiff A B)[j]) →
      strLe (opKey ((runDiff A B)[i])) (opKey ((runDiff A B)[j])) = true) := by
  have hP := List.pairwise_iff_getElem.mp (pairwise_runDiff A B)
  refine ⟨?_, ?_, ?_⟩
  · intro i j hi hj hci hcj
    rcases Nat.lt_trichotomy i j with h | h | h
    · exact h
    · exfalso
      subst h
      cases hx : (runDiff A B)[i] <;> rw [hx] at hci hcj <;>
        simp [isCreateNetOp, isCreateIpOp] at hci hcj
    · exfalso
      exact (hP j i hj hi h).1 ⟨hcj, hci⟩
  · intro i j hi hj hci hcj
    rcases Nat.lt_trichotomy i j with h | h | h
    · exact h
    · exfalso
      subst h
      cases hx : (runDiff A B)[i] <;> rw [hx] at hci hcj <;>
        simp [isDeleteNetOp, isDeleteIpOp] at hci hcj
    · exfalso
      exact (hP j i hj hi h).2.1 ⟨hcj, hci⟩
  · intro i j hi hj hij hseg
    exact (hP i j hi hj hij).2.2 hseg

/-- Claim C3 witness: a concrete diff with one network create, one
address create, one address delete and one network delete, checked at
the first and last positions. -/
theorem spec2proof_c3_witness :
    (0 : Nat) < 1 ∧ (2 : Nat) < 3 := by
  have h0 : 0 < (runDiff ⟨[⟨"10.1.0.0/16"⟩], [⟨"10.1.0.9", "10.1.0.0/16", none, none⟩]⟩
      ⟨[⟨"10.9.0.0/16"⟩], [⟨"10.9.0.9", "10.9.0.0/16", none, none⟩]⟩).length := by decide
  have h1 : 1 < (runDiff ⟨[⟨"10.1.0.0/16"⟩], [⟨"10.1.0.9", "10.1.0.0/16", none, none⟩]⟩
      ⟨[⟨"10.9.0.0/16"⟩], [⟨"10.9.0.9", "10.9.0.0/16", none, none⟩]⟩).length := by decide
  have h2 : 2 < (runDiff ⟨[⟨"10.1.0.0/16"⟩], [⟨"10.1.0.9", "10.1.0.0/16", none, none⟩]⟩
      ⟨[⟨"10.9.0.0/16"⟩], [⟨"10.9.0.9", "10.9.0.0/16", none, none⟩]⟩).length := by decide
  have h3 : 3 < (runDiff ⟨[⟨"10.1.0.0/16"⟩], [⟨"10.1.0.9", "10.1.0.0/16", none, none⟩]⟩
      ⟨[⟨"10.9.0.0/16"⟩], [⟨"10.9.0.9", "10.9.0.0/16", none, none⟩]⟩).length := by decide
  have hc1 : isCreateNetOp ((runDiff ⟨[⟨"10.1.0.0/16"⟩], [⟨"10.1.0.9", "10.1.0.0/16", none, none⟩]⟩
      ⟨[⟨"10.9.0.0/16"⟩], [⟨"10.9.0.9", "10.9.0.0/16", none, none⟩]⟩).get ⟨0, by decide⟩) = true := by
    decide
  have hc2 : isCreateIpOp ((runDiff ⟨[⟨"10.1.0.0/16"⟩], [⟨"10.1.0.9", "10.1.0.0/16", none, none⟩]⟩
      ⟨[⟨"10.9.0.0/16"⟩], [⟨"10.9.0.9", "10.9.0.0/16", none, none⟩]⟩).get ⟨1, by decide⟩) = true := by
    decide
  have hc3 : isDeleteIpOp ((runDiff ⟨[⟨"10.1.0.0/16"⟩], [⟨"10.1.0.9", "10.1.0.0/16", none, none⟩]⟩
      ⟨[⟨"10.9.0.0/16"⟩], [⟨"10.9.0.9", "10.9.0.0/16", none, none⟩]⟩).get ⟨2, by decide⟩) = true := by
    decide
  have hc4 : isDeleteNetOp ((runDiff ⟨[⟨"10.1.0.0/16"⟩], [⟨"10.1.0.9", "10.1.0.0/16", none, none⟩]⟩
      ⟨[⟨"10.9.0.0/16"⟩], [⟨"10.9.0.9", "10.9.0.0/16", none, none⟩]⟩).get ⟨3, by decide⟩) = true := by
    decide
  exact ⟨(spec2proof_c3 ⟨[⟨"10.1.0.0/16"⟩], [⟨"10.1.0.9", "10.1.0.0/16", none, none⟩]⟩
      ⟨[⟨"10.9.0.0/16"⟩], [⟨"10.9.0.9", "10.9.0.0/16", none, none⟩]⟩).1 0 1 h0 h1 hc1 hc2,
    (spec2proof_c3 ⟨[⟨"10.1.0.0/16"⟩], [⟨"10.1.0.9", "10.1.0.0/16", none, none⟩]⟩
      ⟨[⟨"10.9.0.0/16"⟩], [⟨"10.9.0.9", "10.9.0.0/16", none, none⟩]⟩).2.1 2 3 h2 h3 hc3 hc4⟩

/-! ## Claim theorems: idempotence -/

theorem applyOps_append (l1 l2 : List Op) (S : Snapshot) :
    applyOps (l1 ++ l2) S = applyOps l2 (applyOps l1 S) :=
  List.foldl_append applyOp S l1 l2

theorem applyOps_createNets (ns : List Network) :
    ∀ S : Snapshot, applyOps (ns.map Op.createNet) S = ⟨S.nets ++ ns, S.ips⟩ := by
  induction ns with
  | nil => intro S; cases S; simp [applyOps]
  | cons n ns ih =>
    intro S
    show applyOps (ns.map Op.createNet) (applyOp S (Op.createNet n)) = _
    rw [ih]
    show (⟨(S.nets ++ [n]) ++ ns, S.ips⟩ : Snapshot) = ⟨S.nets ++ n :: ns, S.ips⟩
    rw [List.append_assoc, List.singleton_append]

theorem applyOps_createIps (cs : List IPAddress) :
    ∀ S : Snapshot, applyOps (cs.map Op.createIp) S = ⟨S.nets, S.ips ++ cs⟩ := by
  induction cs with
  | nil => intro S; cases S; simp [applyOps]
  | cons c cs ih =>
    intro S
    show applyOps (cs.map Op.createIp) (applyOp S (Op.createIp c)) = _
    rw [ih]
    show (⟨S.nets, (S.ips ++ [c]) ++ cs⟩ : Snapshot) = ⟨S.nets, S.ips ++ c :: cs⟩
    rw [List.append_assoc, List.singleton_append]

theorem map_chainUpd_nil (ips : List IPAddress) : ips.map (chainUpd []) = ips := by
  induction ips with
  | nil => rfl
  | cons x t ih =>
    rw [List.map_cons, ih]
    rfl

theorem applyOps_updateIps (us : List IpUpdate) :
    ∀ S : Snapshot, applyOps (us.map Op.updateIp) S = ⟨S.nets, S.ips.map (chainUpd us)⟩ := by
  induction us with
  | nil =>
    intro S
    cases S with
    | mk nets ips =>
      simp only [List.map_nil, applyOps, List.foldl_nil]
      congr 1
      exact (map_chainUpd_nil ips).symm
  | cons u us ih =>
    intro S
    show applyOps (us.map Op.updateIp) (applyOp S (Op.updateIp u)) = _
    rw [ih]
    show (⟨S.nets, (S.ips.map (applyUpd u)).map (chainUpd us)⟩ : Snapshot) = _
    rw [List.map_map]
    rfl

theorem applyOps_deleteIps (ds : List IPAddress) :
    ∀ S : Snapshot,
      applyOps (ds.map (fun x => Op.deleteIp x.address x.pfx)) S
        = ⟨S.nets, S.ips.filter
            (fun y => !(ds.any (fun d => y.address == d.address && y.pfx == d.pfx)))⟩ := by
  induction ds with
  | nil => intro S; cases S; simp [applyOps]
  | cons d ds ih =>
    intro S
    show applyOps (ds.map (fun x => Op.deleteIp x.address x.pfx))
        (applyOp S (Op.deleteIp d.address d.pfx)) = _
    rw [ih]
    show (⟨S.nets, ((S.ips.filter fun y => !(y.address == d.address && y.pfx == d.pfx)).filter
        fun y => !(ds.any fun e => y.address == e.address && y.pfx == e.pfx))⟩ : Snapshot) = _
    rw [List.filter_filter]
    congr 1
    apply List.filter_congr
    intro a _
    cases h1 : (a.address == d.address && a.pfx == d.pfx)
      <;> cases h2 : ds.any (fun e => a.address == e.address && a.pfx == e.pfx)
      <;> simp [h1, h2]

theorem applyOps_deleteNets (ds : List Network) :
    ∀ S : Snapshot,
      applyOps (ds.map (fun n => Op.deleteNet n.network)) S
        = ⟨S.nets.filter (fun n => !(ds.any (fun d => n.network == d.network))), S.ips⟩ := by
  induction ds with
  | nil => intro S; cases S; simp [applyOps]
  | cons d ds ih =>
    intro S
    show applyOps (ds.map (fun n => Op.deleteNet n.network))
        (applyOp S (Op.deleteNet d.network)) = _
    rw [ih]
    show (⟨((S.nets.filter fun n => !(n.network == d.network)).filter
        fun n => !(ds.any fun e => n.network == e.network)), S.ips⟩ : Snapshot) = _
    rw [List.filter_filter]
    congr 1
    apply List.filter_congr
    intro a _
    cases h1 : (a.network == d.network)
      <;> cases h2 : ds.any (fun e => a.network == e.network)
      <;> simp [h1, h2]

theorem applyDiff_eq (A B : Snapshot) :
    applyOps (runDiff A B) B
      = ⟨(B.nets ++ netCreates A B).filter
            (fun n => !((netDeletes A B).any (fun d => n.network == d.network))),
         ((B.ips ++ ipCreates A B).map (chainUpd (ipUpdates A B))).filter
            (fun y => !((ipDeletes A B).any
              (fun d => y.address == d.address && y.pfx == d.pfx)))⟩ := by
  unfold runDiff
  rw [applyOps_append, applyOps_append, applyOps_append, applyOps_append,
    applyOps_createNets, applyOps_createIps, applyOps_updateIps,
    applyOps_deleteIps, applyOps_deleteNets]

theorem applyUpd_address (u : IpUpdate) (x : IPAddress) :
    (applyUpd u x).address = x.address ∧ (applyUpd u x).pfx = x.pfx := by
  unfold applyUpd
  split <;> exact ⟨rfl, rfl⟩

theorem chainUpd_address (us : List IpUpdate) :
    ∀ x : IPAddress, (chainUpd us x).address = x.address ∧ (chainUpd us x).pfx = x.pfx := by
  induction us with
  | nil => intro x; exact ⟨rfl, rfl⟩
  | cons u us ih =>
    intro x
    show (chainUpd us (applyUpd u x)).address = x.address
      ∧ (chainUpd us (applyUpd u x)).pfx = x.pfx
    obtain ⟨h1, h2⟩ := ih (applyUpd u x)
    obtain ⟨h3, h4⟩ := applyUpd_address u x
    exact ⟨h1.trans h3, h2.trans h4⟩

theorem ipId_chainUpd (us : List IpUpdate) (x : IPAddress) :
    ipId (chainUpd us x) = ipId x := by
  obtain ⟨h1, h2⟩ := chainUpd_address us x
  unfold ipId
  rw [h1, h2]

theorem applyUpd_of_ne (u : IpUpdate) (x : IPAddress)
    (h : ¬(u.address = x.address ∧ u.pfx = x.pfx)) : applyUpd u x = x := by
  unfold applyUpd
  have hcond : (u.address == x.address && u.pfx == x.pfx) = false := by
    cases h1 : (u.address == x.address) <;> cases h2 : (u.pfx == x.pfx) <;> simp_all
  rw [hcond]
  rfl

theorem chainUpd_of_not_mem (us : List IpUpdate) :
    ∀ x : IPAddress, (∀ u ∈ us, ¬(u.address = x.address ∧ u.pfx = x.pfx)) →
      chainUpd us x = x := by
  induction us with
  | nil => intro x _; rfl
  | cons u us ih =>
    intro x h
    show chainUpd us (applyUpd u x) = x
    rw [applyUpd_of_ne u x (h u (List.mem_cons_self u us))]
    exact ih x (fun v hv => h v (List.mem_cons_of_mem u hv))

theorem chainUpd_append (l1 l2 : List IpUpdate) (x : IPAddress) :
    chainUpd (l1 ++ l2) x = chainUpd l2 (chainUpd l1 x) :=
  List.foldl_append _ x l1 l2

theorem chainUpd_single (us : List IpUpdate) (u0 : IpUpdate) (x : IPAddress)
    (hN : (us.map (fun u => (u.address, u.pfx))).Nodup)
    (hm : u0 ∈ us) (hadr : u0.address = x.address) (hpf : u0.pfx = x.pfx) :
    chainUpd us x = applyUpd u0 x := by
  obtain ⟨l1, l2, rfl⟩ := List.append_of_mem hm
  have hN2 : ((l1.map (fun u => (u.address, u.pfx)))
      ++ (u0.address, u0.pfx) :: (l2.map (fun u => (u.address, u.pfx)))).Nodup := by
    simpa using hN
  have hkey : ∀ v, v ∈ l1 ∨ v ∈ l2 → ¬((v.address, v.pfx) = (u0.address, u0.pfx)) := by
    intro v hv heq
    have h1 := List.Nodup.not_mem (List.nodup_middle.mp hN2)
    apply h1
    rw [← heq]
    rcases hv with hv | hv
    · exact List.mem_append.mpr (Or.inl (List.mem_map_of_mem _ hv))
    · exact List.mem_append.mpr (Or.inr (List.mem_map_of_mem _ hv))
  have hl1 : chainUpd l1 x = x := by
    apply chainUpd_of_not_mem
    intro v hv ⟨e1, e2⟩
    exact hkey v (Or.inl hv) (by rw [e1, e2, hadr, hpf])
  rw [chainUpd_append, hl1]
  show chainUpd l2 (applyUpd u0 x) = applyUpd u0 x
  apply chainUpd_of_not_mem
  intro v hv ⟨e1, e2⟩
  obtain ⟨ha1, ha2⟩ := applyUpd_address u0 x
  apply hkey v (Or.inr hv)
  rw [e1, e2, ha1, ha2, hadr, hpf]

theorem fieldDiff_none_iff (t s : Option String) :
    fieldDiff t s = none ↔ normAttr t = normAttr s := by
  unfold fieldDiff
  by_cases h : normAttr t = normAttr s <;> simp [h]

theorem fieldDiff_some_eq (t s : Option String) (c : FieldChange)
    (h : fieldDiff t s = some c) : c = ⟨t, s⟩ := by
  unfold fieldDiff at h
  by_cases hc : normAttr t = normAttr s
  · rw [if_pos hc] at h
    exact Option.noConfusion h
  · rw [if_neg hc] at h
    exact (Option.some.inj h).symm

theorem ipUpdateFor_none_iff (src tgt : IPAddress) :
    ipUpdateFor src tgt = none
      ↔ (normAttr tgt.status = normAttr src.status
          ∧ normAttr tgt.dns_name = normAttr src.dns_name) := by
  unfold ipUpdateFor
  cases hsc : fieldDiff tgt.status src.status with
  | none =>
    cases hdc : fieldDiff tgt.dns_name src.dns_name with
    | none =>
      simp only [hsc, hdc]
      constructor
      · intro _
        exact ⟨(fieldDiff_none_iff _ _).mp hsc, (fieldDiff_none_iff _ _).mp hdc⟩
      · intro _
        trivial
    | some v =>
      simp only [hsc, hdc]
      constructor
      · intro h
        exact Option.noConfusion h
      · intro ⟨_, h2⟩
        exact absurd ((fieldDiff_none_iff _ _).mpr h2) (by rw [hdc]; exact Option.noConfusion)
  | some v =>
    simp only [hsc]
    constructor
    · intro h
      cases hdc : fieldDiff tgt.dns_name src.dns_name <;> rw [hdc] at h <;>
        exact Option.noConfusion h
    · intro ⟨h1, _⟩
      exact absurd ((fieldDiff_none_iff _ _).mpr h1) (by rw [hsc]; exact Option.noConfusion)

theorem ipUpdateFor_applyUpd (src tgt : IPAddress) (u : IpUpdate)
    (had : u.address = tgt.address) (hpf : u.pfx = tgt.pfx)
    (h : ipUpdateFor src tgt = some u) :
    ipUpdateFor src (applyUpd u tgt) = none := by
  obtain ⟨_, _, hsc, hdc⟩ := ipUpdateFor_fields src tgt u h
  have hcond : (u.address == tgt.address && u.pfx == tgt.pfx) = true := by
    simp [had, hpf]
  unfold applyUpd
  rw [hcond]
  simp only [if_true]
  apply (ipUpdateFor_none_iff _ _).mpr
  constructor
  · show normAttr (match u.statusChange with
      | some c => c.newVal
      | none => tgt.status) = normAttr src.status
    cases hfs : fieldDiff tgt.status src.status with
    | none =>
      rw [hsc, hfs]
      exact (fieldDiff_none_iff _ _).mp hfs
    | some c =>
      rw [hsc, hfs]
      rw [fieldDiff_some_eq _ _ c hfs]
  · show normAttr (match u.dnsChange with
      | some c => c.newVal
      | none => tgt.dns_name) = normAttr src.dns_name
    cases hfd : fieldDiff tgt.dns_name src.dns_name with
    | none =>
      rw [hdc, hfd]
      exact (fieldDiff_none_iff _ _).mp hfd
    | some c =>
      rw [hdc, hfd]
      rw [fieldDiff_some_eq _ _ c hfd]

theorem hasNet_iff (l : List Network) (k : String) :
    hasNet l k = true ↔ ∃ m ∈ l, m.network = k := by
  unfold hasNet
  rw [List.any_eq_true]
  simp [beq_iff_eq]

theorem hasIp_iff (l : List IPAddress) (ad pf : String) :
    hasIp l ad pf = true ↔ ∃ x ∈ l, x.address = ad ∧ x.pfx = pf := by
  unfold hasIp
  rw [List.any_eq_true]
  simp [beq_iff_eq]

theorem mem_netCreates_iff (A B : Snapshot) (n : Network) :
    n ∈ netCreates A B ↔ n ∈ A.nets ∧ hasNet B.nets n.network = false := by
  unfold netCreates
  rw [mem_sortByKey, List.mem_filter]
  simp [Bool.not_eq_true']

theorem mem_netDeletes_iff (A B : Snapshot) (n : Network) :
    n ∈ netDeletes A B ↔ n ∈ B.nets ∧ hasNet A.nets n.network = false := by
  unfold netDeletes
  rw [mem_sortByKey, List.mem_filter]
  simp [Bool.not_eq_true']

theorem mem_ipCreates_iff (A B : Snapshot) (x : IPAddress) :
    x ∈ ipCreates A B ↔ x ∈ A.ips ∧ hasIp B.ips x.address x.pfx = false := by
  unfold ipCreates
  rw [mem_sortByKey, List.mem_filter]
  simp [Bool.not_eq_true']

theorem mem_ipDeletes_iff (A B : Snapshot) (x : IPAddress) :
    x ∈ ipDeletes A B ↔ x ∈ B.ips ∧ hasIp A.ips x.address x.pfx = false := by
  unfold ipDeletes
  rw [mem_sortByKey, List.mem_filter]
  simp [Bool.not_eq_true']

theorem map_filterMap_sublist (l : List α) (f : α → Option β) (g : β → γ) (h : α → γ)
    (hfg : ∀ a b, f a = some b → g b = h a) :
    List.Sublist ((l.filterMap f).map g) (l.map h) := by
  induction l with
  | nil => simp
  | cons a t ih =>
    rw [List.filterMap_cons, List.map_cons]
    cases hfa : f a with
    | none => exact List.Sublist.cons (h a) ih
    | some b =>
      rw [List.map_cons, hfg a b hfa]
      exact List.Sublist.cons₂ (h a) ih

theorem ipShared_ids_nodup (A B : Snapshot) (hA : (A.ips.map ipId).Nodup) :
    ((ipShared A B).map ipId).Nodup := by
  have hperm : List.Perm ((ipShared A B).map ipId)
      ((A.ips.filter (fun x => hasIp B.ips x.address x.pfx)).map ipId) :=
    (sortByKey_perm ipKey _).map ipId
  apply hperm.nodup_iff.mpr
  exact ((List.filter_sublist A.ips).map ipId).nodup hA

theorem ipUpdates_ids_nodup (A B : Snapshot) (hA : (A.ips.map ipId).Nodup) :
    ((ipUpdates A B).map (fun u => (u.address, u.pfx))).Nodup := by
  have hsub : List.Sublist ((ipUpdates A B).map (fun u => (u.address, u.pfx)))
      ((ipShared A B).map ipId) := by
    unfold ipUpdates
    apply map_filterMap_sublist
    intro a u hfa
    obtain ⟨h1, h2⟩ := updFn_fields B a u hfa
    unfold ipId
    rw [h1, h2]
  exact hsub.nodup (ipShared_ids_nodup A B hA)

theorem mem_ipUpdates_of (A B : Snapshot) (src tgt : IPAddress) (u : IpUpdate)
    (hsrc : src ∈ A.ips) (hsh : hasIp B.ips src.address src.pfx = true)
    (hf : findIp B.ips src.address src.pfx = some tgt)
    (hupd : ipUpdateFor src tgt = some u) : u ∈ ipUpdates A B := by
  apply List.mem_filterMap.mpr
  refine ⟨src, (mem_sortByKey _ _ src).mpr (List.mem_filter.mpr ⟨hsrc, hsh⟩), ?_⟩
  rw [hf]
  exact hupd

theorem runDiff_eq_nil_of (A S : Snapshot)
    (hSi : (S.ips.map ipId).Nodup)
    (hnets1 : ∀ n ∈ A.nets, hasNet S.nets n.network = true)
    (hnets2 : ∀ m ∈ S.nets, hasNet A.nets m.network = true)
    (hips1 : ∀ a ∈ A.ips, ∃ b ∈ S.ips, b.address = a.address ∧ b.pfx = a.pfx
        ∧ normAttr b.status = normAttr a.status
        ∧ normAttr b.dns_name = normAttr a.dns_name)
    (hips2 : ∀ y ∈ S.ips, hasIp A.ips y.address y.pfx = true) :
    runDiff A S = [] ∧ unchangedCount A S = A.nets.length + A.ips.length := by
  have hipsS : ∀ a ∈ A.ips, hasIp S.ips a.address a.pfx = true := by
    intro a ha
    obtain ⟨b, hbS, hb1, hb2, _, _⟩ := hips1 a ha
    exact (hasIp_iff _ _ _).mpr ⟨b, hbS, hb1, hb2⟩
  have hfind : ∀ a ∈ A.ips, ∃ b, findIp S.ips a.address a.pfx = some b
      ∧ ipUpdateFor a b = none := by
    intro a ha
    obtain ⟨b, hbS, hb1, hb2, hb3, hb4⟩ := hips1 a ha
    refine ⟨b, findIp_eq_of_mem S.ips b a.address a.pfx hSi hbS hb1 hb2, ?_⟩
    exact (ipUpdateFor_none_iff a b).mpr ⟨hb3, hb4⟩
  have hnc : netCreates A S = [] := by
    unfold netCreates
    rw [List.filter_eq_nil_iff.mpr ?_]
    · rfl
    · intro n hn
      simp [hnets1 n hn]
  have hnd : netDeletes A S = [] := by
    unfold netDeletes
    rw [List.filter_eq_nil_iff.mpr ?_]
    · rfl
    · intro m hm
      simp [hnets2 m hm]
  have hic : ipCreates A S = [] := by
    unfold ipCreates
    rw [List.filter_eq_nil_iff.mpr ?_]
    · rfl
    · intro a ha
      simp [hipsS a ha]
  have hid : ipDeletes A S = [] := by
    unfold ipDeletes
    rw [List.filter_eq_nil_iff.mpr ?_]
    · rfl
    · intro y hy
      simp [hips2 y hy]
  have hiu : ipUpdates A S = [] := by
    unfold ipUpdates
    apply List.filterMap_eq_nil_iff.mpr
    intro src hsrc
    have hsrcA : src ∈ A.ips :=
      (List.mem_filter.mp ((mem_sortByKey _ _ src).mp hsrc)).1
    obtain ⟨b, hfb, hub⟩ := hfind src hsrcA
    rw [hfb]
    exact hub
  constructor
  · unfold runDiff
    rw [hnc, hnd, hic, hid, hiu]
    rfl
  · unfold unchangedCount
    have h1 : A.nets.filter (fun n => hasNet S.nets n.network) = A.nets :=
      List.filter_eq_self.mpr (fun n hn => hnets1 n hn)
    have h2 : A.ips.filter (fun x => hasIp S.ips x.address x.pfx) = A.ips :=
      List.filter_eq_self.mpr (fun a ha => hipsS a ha)
    rw [h1, h2]
    have h3 : A.ips.filter (fun src =>
        match findIp S.ips src.address src.pfx with
        | some tgt => (ipUpdateFor src tgt).isNone
        | none => false) = A.ips := by
      apply List.filter_eq_self.mpr
      intro a ha
      obtain ⟨b, hfb, hub⟩ := hfind a ha
      rw [hfb]
      show (ipUpdateFor a b).isNone = true
      rw [hub]
      rfl
    rw [h3]

theorem bool_false_of_not (b : Bool) (h : (!b) = true) : b = false := by
  cases b
  · rfl
  · simp at h

/-- Claim C4: reconciliation is idempotent: applying the emitted
operations to the target and reconciling again emits no operation and
reports every entity unchanged. -/
theorem spec2proof_c4 (A B : Snapshot)
    (hAi : (A.ips.map ipId).Nodup) (hBi : (B.ips.map ipId).Nodup) :
    runDiff A (applyOps (runDiff A B) B) = []
    ∧ unchangedCount A (applyOps (runDiff A B) B)
      = A.nets.length + A.ips.length := by
  have hnet_survive : ∀ m : Network, hasNet A.nets m.network = true →
      ((netDeletes A B).any (fun d => m.network == d.network)) = false := by
    intro m hm
    cases hany : (netDeletes A B).any (fun d => m.network == d.network) with
    | false => rfl
    | true =>
      exfalso
      obtain ⟨d, hd, hdk⟩ := List.any_eq_true.mp hany
      have hdel := (mem_netDeletes_iff A B d).mp hd
      have heq : m.network = d.network := beq_iff_eq.mp hdk
      rw [heq] at hm
      rw [hdel.2] at hm
      exact Bool.noConfusion hm
  have hip_survive : ∀ (ad pf : String), hasIp A.ips ad pf = true →
      ((ipDeletes A B).any (fun d => ad == d.address && pf == d.pfx)) = false := by
    intro ad pf hm
    cases hany : (ipDeletes A B).any (fun d => ad == d.address && pf == d.pfx) with
    | false => rfl
    | true =>
      exfalso
      obtain ⟨d, hd, hdk⟩ := List.any_eq_true.mp hany
      have hdel := (mem_ipDeletes_iff A B d).mp hd
      simp only [Bool.and_eq_true, beq_iff_eq] at hdk
      rw [hdk.1, hdk.2] at hm
      rw [hdel.2] at hm
      exact Bool.noConfusion hm
  have husKey : ∀ u ∈ ipUpdates A B, hasIp B.ips u.address u.pfx = true := by
    intro u hu
    obtain ⟨src, tgt, hsrcA, hsh, hf, hupd⟩ := ipUpdates_mem A B u hu
    obtain ⟨h1, h2, _, _⟩ := ipUpdateFor_fields src tgt u hupd
    rw [h1, h2]
    exact hsh
  have huniq : ∀ u ∈ ipUpdates A B, ∀ a ∈ A.ips, u.address = a.address → u.pfx = a.pfx →
      ∀ x, findIp B.ips a.address a.pfx = some x → ipUpdateFor a x = some u := by
    intro u hu a ha he1 he2 x hfx
    obtain ⟨src, tgt, hsrcA, hsh, hf, hupd⟩ := ipUpdates_mem A B u hu
    obtain ⟨h1, h2, _, _⟩ := ipUpdateFor_fields src tgt u hupd
    have hsrca : src = a := by
      apply List.inj_on_of_nodup_map hAi hsrcA ha
      unfold ipId
      rw [← h1, ← h2, he1, he2]
    subst hsrca
    have htx : tgt = x := Option.some.inj (hf.symm.trans hfx)
    rw [← htx]
    exact hupd
  rw [applyDiff_eq]
  apply runDiff_eq_nil_of
  · -- Nodup of the target identifiers after apply
    have hmapped : (((B.ips ++ ipCreates A B).map (chainUpd (ipUpdates A B))).map ipId).Nodup := by
      rw [List.map_map]
      have heq : (B.ips ++ ipCreates A B).map (ipId ∘ chainUpd (ipUpdates A B))
          = (B.ips ++ ipCreates A B).map ipId :=
        List.map_congr_left (fun x _ => ipId_chainUpd _ x)
      rw [heq, List.map_append]
      apply List.Nodup.append
      · exact hBi
      · have hperm : List.Perm ((ipCreates A B).map ipId)
            ((A.ips.filter (fun x => !(hasIp B.ips x.address x.pfx))).map ipId) :=
          (sortByKey_perm ipKey _).map ipId
        exact hperm.nodup_iff.mpr (((List.filter_sublist A.ips).map ipId).nodup hAi)
      · intro p hp1 hp2
        obtain ⟨b, hbB, hbid⟩ := List.mem_map.mp hp1
        obtain ⟨c, hcC, hcid⟩ := List.mem_map.mp hp2
        have hc2 := (mem_ipCreates_iff A B c).mp hcC
        have hbc : b.address = c.address ∧ b.pfx = c.pfx := by
          have : ipId b = ipId c := hbid.trans hcid.symm
          unfold ipId at this
          exact ⟨congrArg Prod.fst this, congrArg Prod.snd this⟩
        have : hasIp B.ips c.address c.pfx = true :=
          (hasIp_iff _ _ _).mpr ⟨b, hbB, hbc.1, hbc.2⟩
        rw [hc2.2] at this
        exact Bool.noConfusion this
    exact (List.Sublist.map ipId (List.filter_sublist _)).nodup hmapped
  · -- every source network key is present
    intro n hn
    apply (hasNet_iff _ _).mpr
    by_cases hInB : hasNet B.nets n.network = true
    · obtain ⟨m, hmB, hmk⟩ := (hasNet_iff _ _).mp hInB
      refine ⟨m, ?_, hmk⟩
      apply List.mem_filter.mpr
      refine ⟨List.mem_append.mpr (Or.inl hmB), ?_⟩
      have hmA : hasNet A.nets m.network = true := by
        rw [hmk]
        exact (hasNet_iff _ _).mpr ⟨n, hn, rfl⟩
      simp [hnet_survive m hmA]
    · have hnc : n ∈ netCreates A B :=
        (mem_netCreates_iff A B n).mpr ⟨hn, Bool.eq_false_iff.mpr hInB⟩
      refine ⟨n, ?_, rfl⟩
      apply List.mem_filter.mpr
      refine ⟨List.mem_append.mpr (Or.inr hnc), ?_⟩
      have hnA : hasNet A.nets n.network = true := (hasNet_iff _ _).mpr ⟨n, hn, rfl⟩
      simp [hnet_survive n hnA]
  · -- every surviving target network key is a source key
    intro m hm
    have hm2 := List.mem_filter.mp hm
    have hsurv : ((netDeletes A B).any (fun d => m.network == d.network)) = false :=
      bool_false_of_not _ hm2.2
    rcases List.mem_append.mp hm2.1 with hmB | hmN
    · by_cases h : hasNet A.nets m.network = true
      · exact h
      · exfalso
        have hmd : m ∈ netDeletes A B :=
          (mem_netDeletes_iff A B m).mpr ⟨hmB, Bool.eq_false_iff.mpr h⟩
        have : (netDeletes A B).any (fun d => m.network == d.network) = true :=
          List.any_eq_true.mpr ⟨m, hmd, by simp⟩
        rw [this] at hsurv
        exact Bool.noConfusion hsurv
    · have := (mem_netCreates_iff A B m).mp hmN
      exact (hasNet_iff _ _).mpr ⟨m, this.1, rfl⟩
  · -- every source address has a normalized-equal target record
    intro a ha
    by_cases hsh : hasIp B.ips a.address a.pfx = true
    · obtain ⟨x, hxB, hx1, hx2⟩ := (hasIp_iff _ _ _).mp hsh
      have hfx : findIp B.ips a.address a.pfx = some x :=
        findIp_eq_of_mem B.ips x a.address a.pfx hBi hxB hx1 hx2
      have hidc := chainUpd_address (ipUpdates A B) x
      have hyS : chainUpd (ipUpdates A B) x
          ∈ ((B.ips ++ ipCreates A B).map (chainUpd (ipUpdates A B))).filter
              (fun y => !((ipDeletes A B).any
                (fun d => y.address == d.address && y.pfx == d.pfx))) := by
        apply List.mem_filter.mpr
        refine ⟨List.mem_map.mpr ⟨x, List.mem_append.mpr (Or.inl hxB), rfl⟩, ?_⟩
        have hA2 : hasIp A.ips (chainUpd (ipUpdates A B) x).address
            (chainUpd (ipUpdates A B) x).pfx = true := by
          rw [hidc.1, hidc.2, hx1, hx2]
          exact (hasIp_iff _ _ _).mpr ⟨a, ha, rfl, rfl⟩
        have := hip_survive (chainUpd (ipUpdates A B) x).address
          (chainUpd (ipUpdates A B) x).pfx hA2
        simp [this]
      refine ⟨chainUpd (ipUpdates A B) x, hyS,
        hidc.1.trans hx1, hidc.2.trans hx2, ?_⟩
      cases hupd : ipUpdateFor a x with
      | none =>
        have hnotmem : ∀ u ∈ ipUpdates A B, ¬(u.address = x.address ∧ u.pfx = x.pfx) := by
          intro u hu he
          have hsome : ipUpdateFor a x = some u :=
            huniq u hu a ha (he.1.trans hx1) (he.2.trans hx2) x hfx
          rw [hupd] at hsome
          exact Option.noConfusion hsome
        rw [chainUpd_of_not_mem _ x hnotmem]
        exact (ipUpdateFor_none_iff a x).mp hupd
      | some u0 =>
        have hu0mem : u0 ∈ ipUpdates A B := mem_ipUpdates_of A B a x u0 ha hsh hfx hupd
        obtain ⟨hf1, hf2, _, _⟩ := ipUpdateFor_fields a x u0 hupd
        have hchain : chainUpd (ipUpdates A B) x = applyUpd u0 x :=
          chainUpd_single _ u0 x (ipUpdates_ids_nodup A B hAi) hu0mem
            (hf1.trans hx1.symm) (hf2.trans hx2.symm)
        rw [hchain]
        exact (ipUpdateFor_none_iff a _).mp
          (ipUpdateFor_applyUpd a x u0 (hf1.trans hx1.symm) (hf2.trans hx2.symm) hupd)
    · have haC : a ∈ ipCreates A B :=
        (mem_ipCreates_iff A B a).mpr ⟨ha, Bool.eq_false_iff.mpr hsh⟩
      have hchain : chainUpd (ipUpdates A B) a = a := by
        apply chainUpd_of_not_mem
        intro u hu he
        have hk := husKey u hu
        rw [he.1, he.2] at hk
        exact hsh hk
      refine ⟨a, ?_, rfl, rfl, rfl, rfl⟩
      apply List.mem_filter.mpr
      refine ⟨List.mem_map.mpr ⟨a, List.mem_append.mpr (Or.inr haC), hchain⟩, ?_⟩
      have hA2 : hasIp A.ips a.address a.pfx = true :=
        (hasIp_iff _ _ _).mpr ⟨a, ha, rfl, rfl⟩
      simp [hip_survive a.address a.pfx hA2]
  · -- every surviving target address key is a source key
    intro y hy
    have hy2 := List.mem_filter.mp hy
    have hsurv : ((ipDeletes A B).any
        (fun d => y.address == d.address && y.pfx == d.pfx)) = false :=
      bool_false_of_not _ hy2.2
    obtain ⟨x, hx, hyx⟩ := List.mem_map.mp hy2.1
    have hid : y.address = x.address ∧ y.pfx = x.pfx := by
      rw [← hyx]
      exact chainUpd_address (ipUpdates A B) x
    rcases List.mem_append.mp hx with hxB | hxC
    · by_cases h : hasIp A.ips x.address x.pfx = true
      · rw [hid.1, hid.2]
        exact h
      · exfalso
        have hxd : x ∈ ipDeletes A B :=
          (mem_ipDeletes_iff A B x).mpr ⟨hxB, Bool.eq_false_iff.mpr h⟩
        have : (ipDeletes A B).any
            (fun d => y.address == d.address && y.pfx == d.pfx) = true :=
          List.any_eq_true.mpr ⟨x, hxd, by simp [hid.1, hid.2]⟩
        rw [this] at hsurv
        exact Bool.noConfusion hsurv
    · have := (mem_ipCreates_iff A B x).mp hxC
      rw [hid.1, hid.2]
      exact (hasIp_iff _ _ _).mpr ⟨x, this.1, rfl, rfl⟩

/-- Claim C4 witness: a concrete pair of snapshots with a create, a
delete and an update; the second run after applying the diff is empty
and reports both source entities unchanged. -/
theorem spec2proof_c4_witness :
    runDiff ⟨[⟨"10.0.0.0/24"⟩], [⟨"10.0.0.1", "10.0.0.0/24", some "Active", some ""⟩]⟩
        (applyOps
          (runDiff ⟨[⟨"10.0.0.0/24"⟩], [⟨"10.0.0.1", "10.0.0.0/24", some "Active", some ""⟩]⟩
            ⟨[⟨"10.0.1.0/24"⟩], [⟨"10.0.0.1", "10.0.0.0/24", some "Reserved", none⟩]⟩)
          ⟨[⟨"10.0.1.0/24"⟩], [⟨"10.0.0.1", "10.0.0.0/24", some "Reserved", none⟩]⟩) = []
    ∧ unchangedCount ⟨[⟨"10.0.0.0/24"⟩], [⟨"10.0.0.1", "10.0.0.0/24", some "Active", some ""⟩]⟩
        (applyOps
          (runDiff ⟨[⟨"10.0.0.0/24"⟩], [⟨"10.0.0.1", "10.0.0.0/24", some "Active", some ""⟩]⟩
            ⟨[⟨"10.0.1.0/24"⟩], [⟨"10.0.0.1", "10.0.0.0/24", some "Reserved", none⟩]⟩)
          ⟨[⟨"10.0.1.0/24"⟩], [⟨"10.0.0.1", "10.0.0.0/24", some "Reserved", none⟩]⟩)
      = (⟨[⟨"10.0.0.0/24"⟩], [⟨"10.0.0.1", "10.0.0.0/24", some "Active", some ""⟩]⟩
          : Snapshot).nets.length
        + (⟨[⟨"10.0.0.0/24"⟩], [⟨"10.0.0.1", "10.0.0.0/24", some "Active", some ""⟩]⟩
          : Snapshot).ips.length :=
  spec2proof_c4
    ⟨[⟨"10.0.0.0/24"⟩], [⟨"10.0.0.1", "10.0.0.0/24", some "Active", some ""⟩]⟩
    ⟨[⟨"10.0.1.0/24"⟩], [⟨"10.0.0.1", "10.0.0.0/24", some "Reserved", none⟩]⟩
    (by decide) (by decide)
